import Mathlib

set_option maxRecDepth 40000

/-!
Verification development for `munch_data_types.py`, the definition-log compiler
that turns data-type log dumps into symbol tables (Types, GlobalPromotes,
GlobalFunctions, Promotes, Functions).

Python strings are modelled as `List Char` (sequences of code points); the
script's per-item loop becomes an explicit state-passing function, and the
fatal runtime errors of the script (ValueError from tuple unpacking,
IndexError from a missing `Return type: ` trailer, NameError from reading a
never-assigned variable, and the `raise` in the unknown-item branch) become an
`Except` error type.  Line splitting is modelled on `'\n'` only, matching the
newline-normalised text the script reads.
-/

namespace Munch

/-- Python `str` as a sequence of code points. -/
abbrev Str := List Char

/-- `strStarts p s` is Python `s.startswith(p)`. -/
def strStarts : Str → Str → Bool
  | [], _ => true
  | _ :: _, [] => false
  | a :: as, b :: bs => if a = b then strStarts as bs else false

/-- `inStr x s` is Python `x in s` (contiguous substring test). -/
def inStr (x : Str) : Str → Bool
  | [] => x.isEmpty
  | s@(_ :: t) => strStarts x s || inStr x t

/-- Python `s.split(c)` for a single-character separator `c`. -/
def splitOnChar (c : Char) : Str → List Str
  | [] => [[]]
  | x :: xs =>
    match splitOnChar c xs with
    | [] => [[]]
    | h :: t => if x = c then [] :: h :: t else (x :: h) :: t

/-- Helper for `splitOnList`; `fuel` bounds the recursion depth and is always
given as the length of the string being split, which suffices because every
step consumes at least one character. -/
def splitOnListAux (sep : Str) : Nat → Str → Str → List Str
  | _, [], acc => [acc.reverse]
  | 0, s, acc => [acc.reverse ++ s]
  | fuel + 1, x :: xs, acc =>
    if strStarts sep (x :: xs) then
      acc.reverse :: splitOnListAux sep fuel (List.drop (sep.length - 1) xs) []
    else
      splitOnListAux sep fuel xs (x :: acc)

/-- Python `s.split(sep)` for a non-empty multi-character separator
(non-overlapping, left to right). -/
def splitOnList (sep : Str) (s : Str) : List Str :=
  if sep = [] then [s] else splitOnListAux sep s.length s []

/-- Python `s.splitlines()` restricted to `'\n'` line breaks: the trailing
empty chunk produced by a final newline is dropped, and the empty string has
no lines. -/
def splitlines (s : Str) : List Str :=
  if s = [] then []
  else
    let p := splitOnChar '\n' s
    if p.getLast? = some [] then p.dropLast else p

/-- Characters stripped by Python `str.strip()`. -/
def isSpaceChar (c : Char) : Bool :=
  c == ' ' || c == '\t' || c == '\n' || c == '\r' || c == '\x0b' || c == '\x0c'

/-- Python `s.strip()`. -/
def trimStr (s : Str) : Str :=
  ((s.dropWhile isSpaceChar).reverse.dropWhile isSpaceChar).reverse

/-- Decimal rendering of a natural number, as Python `"{}".format(n)` renders
it; the fuel argument `n + 1` always suffices since `n / 10 < n` for `n ≥ 10`. -/
def decimalAux : Nat → Nat → Str
  | 0, _ => []
  | fuel + 1, n =>
    if n < 10 then [Nat.digitChar n]
    else decimalAux fuel (n / 10) ++ [Nat.digitChar (n % 10)]

/-- Decimal rendering of `n`. -/
def decimal (n : Nat) : Str := decimalAux (n + 1) n

/-- The positional marker `Arg{k}` scanned for in a header line. -/
def argMarker (k : Nat) : Str := "Arg".toList ++ decimal k

/-- The `while True` arity scan of the script: count consecutive markers
`Arg0`, `Arg1`, … present in the first line.  `fuel` bounds the loop; the
script's loop needs no bound because a marker for `n` can only occur in a line
of length at least the length of `n`'s decimal rendering. -/
def countArgsFrom (line0 : Str) : Nat → Nat → Nat
  | 0, n => n
  | fuel + 1, n =>
    if inStr (argMarker n) line0 then countArgsFrom line0 fuel (n + 1) else n

/-- Arity of a header line: the number of consecutive `Arg0..` markers.  The
fuel `10 ^ line0.length` dominates every count the loop can reach, because a
present marker `Arg(n)` forces `n`'s decimal rendering to fit in `line0`. -/
def nargsOf (line0 : Str) : Nat := countArgsFrom line0 (10 ^ line0.length) 0

/-- Argument-override tables: `(name, arity) ↦ argument type list`. -/
abbrev ArgTable := List ((Str × Nat) × List Str)

/-- Return-type override table: `name ↦ return type`. -/
abbrev RetTable := List (Str × Str)

/-- Python `dict` lookup for the argument tables (keys are unique, so
first-match association lookup coincides with dict lookup). -/
def tblLookup {α : Type} (k : Str × Nat) : List ((Str × Nat) × α) → Option α
  | [] => none
  | (k', v) :: rest => if k' = k then some v else tblLookup k rest

/-- Python `dict` lookup for the return-type table. -/
def retLookup (k : Str) : RetTable → Option Str
  | [] => none
  | (k', v) :: rest => if k' = k then some v else retLookup k rest

/-- `ARGS_OVERRIDE` of the script: exact-match overrides keyed by the full
(owner-qualified) name and arity. -/
def ARGS_OVERRIDE : ArgTable := [
  (("Artifact.GetFeatureText".toList, 1), ["IType(Item::ArtifactFeatureGroup)".toList]),
  (("Character.Custom2".toList, 2), ["DType(CString)".toList, "DType(AnyScope)".toList]),
  (("EqualTo_string".toList, 2), ["DType(CString)".toList, "DType(CString)".toList]),
  (("FaithDoctrine.GetName".toList, 1), ["DType(Faith)".toList]),
  (("FaithDoctrineGroup.GetName".toList, 1), ["DType(Faith)".toList]),
  (("GetAccoladeType".toList, 1), ["IType(Item::AccoladeType)".toList]),
  (("GetActivityGuestInviteRule".toList, 1), ["IType(Item::GuestInviteRule)".toList]),
  (("GetActivityIntent".toList, 1), ["IType(Item::ActivityIntent)".toList]),
  (("GetActivityLocale".toList, 1), ["IType(Item::ActivityLocale)".toList]),
  (("GetActivityPulseAction".toList, 1), ["IType(Item::PulseAction)".toList]),
  (("GetActivityType".toList, 1), ["IType(Item::ActivityType)".toList]),
  (("GetArtifactType".toList, 1), ["IType(Item::ArtifactType)".toList]),
  (("GetArtifactVisualType".toList, 1), ["IType(Item::ArtifactVisual)".toList]),
  (("GetBookmark".toList, 1), ["IType(Item::Bookmark)".toList]),
  (("GetBookmarkGroup".toList, 1), ["IType(Item::BookmarkGroup)".toList]),
  (("GetBuilding".toList, 1), ["IType(Item::Building)".toList]),
  (("GetCasusBelliType".toList, 1), ["IType(Item::CasusBelli)".toList]),
  (("GetCatalystType".toList, 1), ["IType(Item::Catalyst)".toList]),
  (("GetCharacterInteraction".toList, 1), ["IType(Item::Interaction)".toList]),
  (("GetCharacterInteractionCategory".toList, 1), ["IType(Item::InteractionCategory)".toList]),
  (("GetDecisionWithKey".toList, 1), ["IType(Item::Decision)".toList]),
  (("GetDoctrine".toList, 1), ["IType(Item::Doctrine)".toList]),
  (("GetFaithByKey".toList, 1), ["IType(Item::Faith)".toList]),
  (("GetFaithDoctrine".toList, 1), ["IType(Item::Doctrine)".toList]),
  (("GetFocus".toList, 1), ["IType(Item::Focus)".toList]),
  (("GetGeographicalRegion".toList, 1), ["IType(Item::Region)".toList]),
  (("GetHolySite".toList, 1), ["IType(Item::HolySite)".toList]),
  (("GetIllustration".toList, 1), ["IType(Item::ScriptedIllustration)".toList]),
  (("GetLifestyle".toList, 1), ["IType(Item::Lifestyle)".toList]),
  (("GetMaA".toList, 1), ["IType(Item::MenAtArms)".toList]),
  (("GetModifier".toList, 1), ["IType(Item::Modifier)".toList]),
  (("GetNickname".toList, 1), ["IType(Item::Nickname)".toList]),
  (("GetPerk".toList, 1), ["IType(Item::Perk)".toList]),
  (("GetRelation".toList, 1), ["IType(Item::Relation)".toList]),
  (("GetReligionByKey".toList, 1), ["IType(Item::Religion)".toList]),
  (("GetScheme".toList, 1), ["IType(Item::Scheme)".toList]),
  (("GetSchemeType".toList, 1), ["IType(Item::Scheme)".toList]),
  (("GetScriptedGui".toList, 1), ["IType(Item::ScriptedGui)".toList]),
  (("GetScriptedRelation".toList, 1), ["IType(Item::Relation)".toList]),
  (("GetSecretType".toList, 1), ["IType(Item::Secret)".toList]),
  (("GetStaticModifier".toList, 1), ["IType(Item::Modifier)".toList]),
  (("GetTerrain".toList, 1), ["IType(Item::Terrain)".toList]),
  (("GetTitleByKey".toList, 1), ["IType(Item::Title)".toList]),
  (("GetTrait".toList, 1), ["IType(Item::Trait)".toList]),
  (("GetVassalStance".toList, 1), ["IType(Item::VassalStance)".toList]),
  (("Scope.Var".toList, 1), ["DType(CString)".toList]),
  (("TopScope.sC".toList, 1), ["DType(CString)".toList]),
  (("VariableSystem.Set".toList, 1), ["DType(CString)".toList, "DType(Unknown)".toList])
]

/-- `ARGS_OVERRIDE_ANY` of the script: owner-agnostic overrides keyed by the
bare name and arity. -/
def ARGS_OVERRIDE_ANY : ArgTable := [
  (("Custom".toList, 1), ["DType(CString)".toList]),
  (("GetName".toList, 1), ["DType(Character)".toList])
]

/-- `UNARY_ARGS` of the script. -/
def UNARY_ARGS : List Str := ["Abs_".toList, "GetString_".toList, "Negate_".toList]

/-- `BINARY_ARGS` of the script. -/
def BINARY_ARGS : List Str := [
  "Add_".toList,
  "EqualTo_".toList,
  "Divide_".toList,
  "GetNumberAbove_".toList,
  "GreaterThanOrEqualTo_".toList,
  "GreaterThan_".toList,
  "LessThanOrEqualTo_".toList,
  "LessThan_".toList,
  "Max_".toList,
  "Multiply_".toList,
  "NotEqualTo_".toList,
  "Subtract_".toList
]

/-- `RTYPE_OVERRIDE` of the script. -/
def RTYPE_OVERRIDE : RetTable := [
  ("GetNullCharacter".toList, "Character".toList),
  ("Scope.Accolade".toList, "Accolade".toList),
  ("Scope.Activity".toList, "Activity".toList),
  ("Scope.ActivityType".toList, "ActivityType".toList),
  ("Scope.Army".toList, "Army".toList),
  ("Scope.Artifact".toList, "Artifact".toList),
  ("Scope.CasusBelli".toList, "ActiveCasusBelli".toList),
  ("Scope.Char".toList, "Character".toList),
  ("Scope.CharacterMemory".toList, "CharacterMemory".toList),
  ("Scope.Combat".toList, "Combat".toList),
  ("Scope.CombatSide".toList, "CombatSide".toList),
  ("Scope.CouncilTask".toList, "ActiveCouncilTask".toList),
  ("Scope.Culture".toList, "Culture".toList),
  ("Scope.CulturePillar".toList, "CulturePillar".toList),
  ("Scope.CultureTradition".toList, "CultureTradition".toList),
  ("Scope.DecisionType".toList, "Decision".toList),
  ("Scope.Faction".toList, "Faction".toList),
  ("Scope.Faith".toList, "Faith".toList),
  ("Scope.FaithDoctrine".toList, "FaithDoctrine".toList),
  ("Scope.GetCharacter".toList, "Character".toList),
  ("Scope.GetLandedTitle".toList, "Title".toList),
  ("Scope.GetProvince".toList, "Province".toList),
  ("Scope.GetScheme".toList, "Scheme".toList),
  ("Scope.GovernmentType".toList, "GovernmentType".toList),
  ("Scope.GreatHolyWar".toList, "GreatHolyWar".toList),
  ("Scope.HolyOrder".toList, "HolyOrder".toList),
  ("Scope.House".toList, "DynastyHouse".toList),
  ("Scope.Inspiration".toList, "Inspiration".toList),
  ("Scope.MercenaryCompany".toList, "MercenaryCompany".toList),
  ("Scope.Province".toList, "Province".toList),
  ("Scope.Religion".toList, "Religion".toList),
  ("Scope.Scheme".toList, "Scheme".toList),
  ("Scope.ScriptValue".toList, "CFixedPoint".toList),
  ("Scope.Secret".toList, "Secret".toList),
  ("Scope.Story".toList, "Story".toList),
  ("Scope.Struggle".toList, "Struggle".toList),
  ("Scope.Title".toList, "Title".toList),
  ("Scope.Trait".toList, "Trait".toList),
  ("Scope.TravelPlan".toList, "TravelPlan".toList),
  ("Scope.VassalContractType".toList, "VassalContractType".toList),
  ("Scope.War".toList, "War".toList),
  ("TopScope.sC".toList, "Character".toList)
]

/-- The block separator of the script. -/
def SEPARATOR : Str := "\n-----------------------\n\n".toList

/-- The fatal runtime errors the script can die with while processing items. -/
inductive Err : Type where
  /-- `ValueError`: `type, barename = name.split(".")` with more than one dot. -/
  | valueErr : Err
  /-- `IndexError`: indexing a split or line list out of range. -/
  | indexErr : Err
  /-- `NameError`: reading `type`/`barename` before any assignment. -/
  | nameErr : Err
  /-- The `raise` in the unknown-item branch; the script prints the offending
  block before raising, so the error carries it verbatim. -/
  | unknownItem (item : Str) : Err
deriving DecidableEq

/-- The name part of a header line: `lines[0].split('(')[0]`. -/
def nameOfLine (line0 : Str) : Str := (splitOnChar '(' line0).headD []

/-- The type embedded in a prefixed name: `name.split('_')[1]`. -/
def splitType (name : Str) : Str := (splitOnChar '_' name).getD 1 []

/-- Render `DType(t)`. -/
def dty (t : Str) : Str := "DType(".toList ++ t ++ ")".toList

/-- `DType(Unknown)`, the default argument descriptor. -/
def dtUnknown : Str := "DType(Unknown)".toList

/-- `DType(bool)`, the first argument of `Select_` functions. -/
def dtBool : Str := "DType(bool)".toList

/-- Lines 154–183 of the script: compute the argument list for one item, plus
the new values of the loop-persistent variables `type` and `barename`.
`tvar`/`bvar` are the values those variables currently hold (`none` = never
assigned).  Throws `valueErr` when the name holds more than one dot. -/
def resolveArgs (A AA : ArgTable) (tvar bvar : Option Str) (line0 : Str) :
    Except Err (List Str × Option Str × Option Str) :=
  let name := nameOfLine line0
  let nargs := nargsOf line0
  let args0 : List Str := List.replicate nargs dtUnknown
  let args1 := UNARY_ARGS.foldl
    (fun a s => if strStarts s name then [dty (splitType name)] else a) args0
  let tv1 := UNARY_ARGS.foldl
    (fun t s => if strStarts s name then some (splitType name) else t) tvar
  let args2 := BINARY_ARGS.foldl
    (fun a s => if strStarts s name then [dty (splitType name), dty (splitType name)] else a) args1
  let tv2 := BINARY_ARGS.foldl
    (fun t s => if strStarts s name then some (splitType name) else t) tv1
  let args3 :=
    if strStarts ("Select_".toList) name then
      [dtBool, dty (splitType name), dty (splitType name)]
    else args2
  let tv3 :=
    if strStarts ("Select_".toList) name then some (splitType name) else tv2
  let args4 := (tblLookup (name, nargs) AA).getD args3
  if inStr (".".toList) name then
    match splitOnChar '.' name with
    | [t, b] =>
      .ok ((tblLookup (name, nargs) A).getD ((tblLookup (b, nargs) AA).getD args4),
           some t, some b)
    | _ => .error .valueErr
  else
    .ok ((tblLookup (name, nargs) A).getD args4, tv3, bvar)

/-- What processing one block contributes: an optional type-enumeration line,
at most one record for each of the four record tables, and the new values of
the persistent variables `type` (`tv`) and `barename` (`bv`). -/
structure Delta : Type where
  tline : Option Str
  gp : List Str
  gf : List Str
  fn : List Str
  pr : List Str
  tv : Option Str
  bv : Option Str
deriving DecidableEq

/-- Render a global record: `    ("name", args, rtype),\n`. -/
def gRec (name args rtype : Str) : Str :=
  "    (\"".toList ++ name ++ "\", ".toList ++ args ++ ", ".toList ++ rtype ++ "),\n".toList

/-- Render a member record: `    ("barename", type, args, rtype),\n`. -/
def mRec (barename ty args rtype : Str) : Str :=
  "    (\"".toList ++ barename ++ "\", ".toList ++ ty ++ ", ".toList ++ args
    ++ ", ".toList ++ rtype ++ "),\n".toList

/-- Render the `Args(&[…])` wrapper around the resolved argument list. -/
def argsWrap (args : List Str) : Str :=
  "Args(&[".toList ++ (List.intersperse (", ".toList) args).flatten ++ "])".toList

/-- Lines 197–203 of the script (return-type resolution, §4.5 of the spec):
take the text after `Return type: `, strip it, canonicalise the
`[unregistered]` and `_null_type_` sentinels, then consult the name-keyed
override table while the value is still `Unknown`. -/
def retResolve (RT : RetTable) (name r1 : Str) : Str :=
  let rt0 := trimStr r1
  let rt1 := if rt0 = "[unregistered]".toList then "Unknown".toList else rt0
  let rt2 := if rt1 = "_null_type_".toList then "void".toList else rt1
  if rt2 = "Unknown".toList then (retLookup name RT).getD rt2 else rt2

/-- The body of the script's per-item loop (lines 150–217), reading the
persistent variables `tvar`/`bvar` and producing a `Delta`. -/
def itemBody (A AA : ArgTable) (RT : RetTable) (tvar bvar : Option Str) (item : Str) :
    Except Err Delta :=
  if item = [] then .ok ⟨none, [], [], [], [], tvar, bvar⟩
  else
    match splitlines item with
    | [] => .error .indexErr
    | line0 :: rest =>
      match resolveArgs A AA tvar bvar line0 with
      | .error e => .error e
      | .ok (args, tv, bv) =>
        let name := nameOfLine line0
        let argsStr := argsWrap args
        if inStr ("Definition type: Global macro".toList) item then
          .ok ⟨none, [], [], [], [], tv, bv⟩
        else if inStr ("Definition type: Type".toList) item then
          .ok ⟨some ("    ".toList ++ name ++ ",\n".toList), [], [], [], [], tv, bv⟩
        else
          match splitOnList ("Return type: ".toList) ((line0 :: rest).getLastD []) with
          | _ :: r1 :: _ =>
            let rt3 := retResolve RT name r1
            if inStr ("\nDefinition type: Global promote\n".toList) item then
              .ok ⟨none, [gRec name argsStr rt3], [], [], [], tv, bv⟩
            else if inStr ("\nDefinition type: Global function\n".toList) item then
              .ok ⟨none, [], [gRec name argsStr rt3], [], [], tv, bv⟩
            else if inStr ("\nDefinition type: Function\n".toList) item then
              match tv, bv with
              | some t, some b =>
                let rt4 := if b = "AccessSelf".toList ∨ b = "Self".toList then t else rt3
                .ok ⟨none, [], [], [mRec b t argsStr rt4], [], tv, bv⟩
              | _, _ => .error .nameErr
            else if inStr ("\nDefinition type: Promote\n".toList) item then
              match tv, bv with
              | some t, some b =>
                .ok ⟨none, [], [], [], [mRec b t argsStr rt3], tv, bv⟩
              | _, _ => .error .nameErr
            else .error (.unknownItem item)
          | _ => .error .indexErr

/-- The process-wide accumulator state: the five collections plus the
loop-persistent variables `type` and `barename`. -/
structure MState : Type where
  types : List Str
  gp : List Str
  gf : List Str
  fn : List Str
  pr : List Str
  tvar : Option Str
  bvar : Option Str
deriving DecidableEq

/-- Apply one block's contribution to the accumulator: `TYPES` gets the type
line only if not already present (set semantics); the other four tables are
appended unconditionally. -/
def applyDelta (st : MState) (d : Delta) : MState :=
  { types :=
      match d.tline with
      | none => st.types
      | some tl => if tl ∈ st.types then st.types else st.types ++ [tl]
    gp := st.gp ++ d.gp
    gf := st.gf ++ d.gf
    fn := st.fn ++ d.fn
    pr := st.pr ++ d.pr
    tvar := d.tv
    bvar := d.bv }

/-- Process one block. -/
def processItem (A AA : ArgTable) (RT : RetTable) (st : MState) (item : Str) :
    Except Err MState :=
  match itemBody A AA RT st.tvar st.bvar item with
  | .error e => .error e
  | .ok d => .ok (applyDelta st d)

/-- Process a list of blocks in order, stopping at the first fatal error. -/
def runBlocks (A AA : ArgTable) (RT : RetTable) (st : MState) : List Str → Except Err MState
  | [] => .ok st
  | b :: bs =>
    match processItem A AA RT st b with
    | .error e => .error e
    | .ok st' => runBlocks A AA RT st' bs

/-- Process a list of input files (each file is split on `SEPARATOR`). -/
def runFiles (A AA : ArgTable) (RT : RetTable) (st : MState) : List Str → Except Err MState
  | [] => .ok st
  | f :: fs =>
    match runBlocks A AA RT st (splitOnList SEPARATOR f) with
    | .error e => .error e
    | .ok st' => runFiles A AA RT st' fs

/-- The initial accumulator: `TYPES` seeded with `Vec4f` and
`GLOBAL_PROMOTES` seeded with the `Root` record; `type` and `barename` not yet
assigned. -/
def initState : MState :=
  { types := ["    Vec4f,\n".toList]
    gp := ["    (\"Root\", Args(&[]), Scope),\n".toList]
    gf := []
    fn := []
    pr := []
    tvar := none
    bvar := none }

/-- Run the script's main loop over a list of input file contents with the
production override tables. -/
def runMain (files : List Str) : Except Err MState :=
  runFiles ARGS_OVERRIDE ARGS_OVERRIDE_ANY RTYPE_OVERRIDE initState files

/-- The final state as an `Option`, for stating concrete-run facts. -/
def runMainOk (files : List Str) : Option MState :=
  match runMain files with
  | .ok st => some st
  | .error _ => none

/-- The error of a failed run, if any. -/
def runMainErr (files : List Str) : Option Err :=
  match runMain files with
  | .ok _ => none
  | .error e => some e

/-- The blocks of all input files, in processing order. -/
def joinBlocks (files : List Str) : List Str :=
  (files.map (splitOnList SEPARATOR)).flatten

/-- Python string comparison (`<=`): lexicographic on code points. -/
def strLe : Str → Str → Bool
  | [], _ => true
  | _ :: _, [] => false
  | a :: as, b :: bs => if a = b then strLe as bs else decide (a < b)

/-- `strLe` as a relation, for the sorting lemmas. -/
def strLeP (a b : Str) : Prop := strLe a b = true

instance : DecidableRel strLeP := fun a b => inferInstanceAs (Decidable (strLe a b = true))

/-- `list.sort()` of the script: sorting by string comparison (stability is
irrelevant since equal strings are identical). -/
def sortStrs (l : List Str) : List Str := List.insertionSort strLeP l

/-- The generated `datatypes.rs`: enum header, the two built-in sentinel
members, then the sorted `TYPES` lines. -/
def datatypesOut (st : MState) : Str :=
  "#[derive(Copy, Clone, Debug, Eq, PartialEq, Display, EnumString)]\n".toList
    ++ "pub enum Datatype \x7b\n".toList
    ++ "    Unknown,\n".toList
    ++ "    AnyScope,\n".toList
    ++ (sortStrs st.types).flatten
    ++ "\x7d\n".toList

/-- A record table file: `&[\n`, the sorted records, `]\n`. -/
def tableOut (records : List Str) : Str :=
  "&[\n".toList ++ (sortStrs records).flatten ++ "]\n".toList

/-- All five output tables of one run, as rendered byte sequences. -/
def outputs (st : MState) : Str × Str × Str × Str × Str :=
  (datatypesOut st, tableOut st.gp, tableOut st.gf, tableOut st.pr, tableOut st.fn)

/-! ### Basic facts about the string model -/

theorem strStarts_iff (p s : Str) : strStarts p s = true ↔ p <+: s := by
  induction p generalizing s with
  | nil => simp [strStarts, List.nil_prefix]
  | cons a as ih =>
    cases s with
    | nil => simp [strStarts, List.prefix_nil]
    | cons b bs =>
      by_cases hab : a = b
      · subst hab; simp [strStarts, ih, List.cons_prefix_cons]
      · simp [strStarts, hab, List.cons_prefix_cons]

theorem inStr_iff (x s : Str) : inStr x s = true ↔ x <:+: s := by
  induction s with
  | nil => simp [inStr, List.infix_nil, List.isEmpty_iff]
  | cons c t ih => simp [inStr, strStarts_iff, ih, List.infix_cons_iff]

theorem inStr_length_le {x s : Str} (h : inStr x s = true) : x.length ≤ s.length :=
  List.IsInfix.length_le ((inStr_iff x s).mp h)

theorem strStarts_total : ∀ (s a b : Str),
    strStarts a s = true → strStarts b s = true →
    strStarts a b = true ∨ strStarts b a = true := by
  intro s
  induction s with
  | nil =>
    intro a b ha hb
    cases a with
    | nil => exact Or.inl rfl
    | cons x xs => simp [strStarts] at ha
  | cons c t ih =>
    intro a b ha hb
    cases a with
    | nil => exact Or.inl rfl
    | cons a1 as =>
      cases b with
      | nil => exact Or.inr rfl
      | cons b1 bs =>
        simp only [strStarts] at ha hb
        by_cases hac : a1 = c
        · by_cases hbc : b1 = c
          · subst hac; subst hbc
            simp only [strStarts, if_pos rfl]
            simp only [if_pos rfl] at ha hb
            exact ih as bs ha hb
          · simp [hbc] at hb
        · simp [hac] at ha

theorem decimalAux_lt : ∀ (fuel n : Nat), n < fuel → n < 10 ^ (decimalAux fuel n).length := by
  intro fuel
  induction fuel with
  | zero => intro n h; omega
  | succ fuel ih =>
    intro n h
    by_cases h10 : n < 10
    · simp only [decimalAux, h10, if_true, List.length_cons, List.length_nil]
      omega
    · have hn : 0 < n := by omega
      have hdiv : n / 10 < n := Nat.div_lt_self hn (by omega)
      have hfuel : n / 10 < fuel := by omega
      have hrec := ih (n / 10) hfuel
      simp only [decimalAux, h10, if_false, List.length_append, List.length_cons,
        List.length_nil]
      have : n < 10 * (n / 10) + 10 := by
        have := Nat.mod_lt n (show 0 < 10 by omega)
        have hsplit := Nat.div_add_mod n 10
        omega
      calc n < 10 * (n / 10) + 10 := this
        _ = 10 * (n / 10 + 1) := by ring
        _ ≤ 10 * 10 ^ (decimalAux fuel (n / 10)).length := by
              have : n / 10 + 1 ≤ 10 ^ (decimalAux fuel (n / 10)).length := hrec
              exact Nat.mul_le_mul_left 10 this
        _ = 10 ^ ((decimalAux fuel (n / 10)).length + 1) := by ring

theorem decimal_lt (n : Nat) : n < 10 ^ (decimal n).length :=
  decimalAux_lt (n + 1) n (Nat.lt_succ_self n)

theorem argMarker_length (k : Nat) : (argMarker k).length = 3 + (decimal k).length := by
  simp [argMarker]; omega

theorem countArgsFrom_eq (line0 : Str) :
    ∀ (fuel m j : Nat),
    (∀ k, j ≤ k → k < j + m → inStr (argMarker k) line0 = true) →
    inStr (argMarker (j + m)) line0 = false →
    m ≤ fuel →
    countArgsFrom line0 fuel j = j + m := by
  intro fuel
  induction fuel with
  | zero =>
    intro m j hall habs hm
    have : m = 0 := by omega
    subst this
    rfl
  | succ fuel ih =>
    intro m j hall habs hm
    cases m with
    | zero =>
      have habs' : inStr (argMarker j) line0 = false := by simpa using habs
      simp [countArgsFrom, habs']
    | succ m' =>
      have hj : inStr (argMarker j) line0 = true := hall j le_rfl (by omega)
      have step : countArgsFrom line0 (fuel + 1) j = countArgsFrom line0 fuel (j + 1) := by
        simp [countArgsFrom, hj]
      rw [step]
      have hrec := ih m' (j + 1)
        (fun k hk1 hk2 => hall k (by omega) (by omega))
        (by have : j + 1 + m' = j + (m' + 1) := by omega
            rw [this]; exact habs)
        (by omega)
      omega

theorem inStr_trans {a b c : Str} (h1 : inStr a b = true) (h2 : inStr b c = true) :
    inStr a c = true :=
  (inStr_iff a c).mpr (List.IsInfix.trans ((inStr_iff a b).mp h1) ((inStr_iff b c).mp h2))

theorem inStr_singleton (c : Char) (s : Str) : inStr [c] s = true ↔ c ∈ s := by
  rw [inStr_iff]
  constructor
  · rintro ⟨u, v, rfl⟩; simp
  · intro h
    obtain ⟨u, v, rfl⟩ := List.append_of_mem h
    exact ⟨u, v, by simp⟩

theorem splitOnChar_ne_nil (c : Char) (s : Str) : splitOnChar c s ≠ [] := by
  cases s with
  | nil => simp [splitOnChar]
  | cons x xs =>
    simp only [splitOnChar]
    rcases h : splitOnChar c xs with _ | ⟨h1, t1⟩
    · simp
    · by_cases hx : x = c <;> simp [hx]

theorem splitOnChar_of_not_mem {c : Char} : ∀ {s : Str}, c ∉ s → splitOnChar c s = [s] := by
  intro s
  induction s with
  | nil => intro _; rfl
  | cons x xs ih =>
    intro h
    have hx : x ≠ c := fun hh => h (hh ▸ List.mem_cons_self x xs)
    have hxs : c ∉ xs := fun hh => h (List.mem_cons_of_mem x hh)
    simp only [splitOnChar, ih hxs, hx, if_false]

theorem mem_of_splitOnChar_len {c : Char} {s : Str}
    (h : 2 ≤ (splitOnChar c s).length) : c ∈ s := by
  by_contra hmem
  rw [splitOnChar_of_not_mem hmem] at h
  simp at h

theorem inStr_dot_of_split {c : Char} {s : Str} {t b : Str}
    (h : splitOnChar c s = [t, b]) : inStr [c] s = true :=
  (inStr_singleton c s).mpr (mem_of_splitOnChar_len (by rw [h]; simp))

theorem two_le_splitOnChar_of_mem {c : Char} : ∀ {s : Str},
    c ∈ s → 2 ≤ (splitOnChar c s).length := by
  intro s
  induction s with
  | nil => intro h; simp at h
  | cons x xs ih =>
    intro h
    simp only [splitOnChar]
    rcases h2 : splitOnChar c xs with _ | ⟨h1, t1⟩
    · exact absurd h2 (splitOnChar_ne_nil c xs)
    · by_cases hx : x = c
      · simp [hx]
      · have hmem : c ∈ xs := by
          rcases List.mem_cons.mp h with h' | h'
          · exact absurd h'.symm hx
          · exact h'
        have hlen := ih hmem
        rw [h2] at hlen
        simpa [hx] using hlen

theorem splitOnChar_eq_nilnil {c : Char} {s : Str} (h : splitOnChar c s = [[]]) : s = [] := by
  cases s with
  | nil => rfl
  | cons x xs =>
    exfalso
    simp only [splitOnChar] at h
    rcases h2 : splitOnChar c xs with _ | ⟨h1, t1⟩
    · exact splitOnChar_ne_nil c xs h2
    · rw [h2] at h
      by_cases hx : x = c <;> simp [hx] at h

theorem splitlines_ne_nil {s : Str} (h : s ≠ []) : splitlines s ≠ [] := by
  unfold splitlines
  rw [if_neg h]
  have hne := splitOnChar_ne_nil '\n' s
  by_cases hlast : (splitOnChar '\n' s).getLast? = some []
  · rw [if_pos hlast]
    obtain ⟨ys, hys⟩ := List.getLast?_eq_some_iff.mp hlast
    rcases hy : ys with _ | ⟨y0, yrest⟩
    · subst hy
      simp only [List.nil_append] at hys
      exact absurd (splitOnChar_eq_nilnil hys) h
    · subst hy
      rw [hys, List.dropLast_concat]
      simp
  · rw [if_neg hlast]
    exact hne

theorem foldl_const_if {α β : Type} (p : β → Bool) (v : α) :
    ∀ (l : List β) (init : α),
    l.foldl (fun a s => if p s then v else a) init = if l.any p then v else init := by
  intro l
  induction l with
  | nil => intro init; simp
  | cons x xs ih =>
    intro init
    by_cases hx : p x <;> simp [hx, ih]

theorem tblLookup_mem {α : Type} {k : Str × Nat} {v : α} :
    ∀ {tbl : List ((Str × Nat) × α)}, tblLookup k tbl = some v → (k, v) ∈ tbl := by
  intro tbl
  induction tbl with
  | nil => intro h; simp [tblLookup] at h
  | cons e rest ih =>
    intro h
    obtain ⟨k', v'⟩ := e
    by_cases hk : k' = k
    · subst hk
      have hv : some v' = some v := by
        rw [show tblLookup k' ((k', v') :: rest) = some v' from by simp [tblLookup]] at h
        exact h
      injection hv with hv
      subst hv
      exact List.mem_cons_self _ _
    · simp only [tblLookup, if_neg hk] at h
      exact List.mem_cons_of_mem _ (ih h)

/-! ### Characterisation of the argument resolver -/

/-- The argument list after the three prefix-pattern rules (before the
override-table lookups): `Select_` wins over the binary patterns, which win
over the unary patterns, which win over the arity default. -/
def prefixBase (name : Str) (nargs : Nat) : List Str :=
  if strStarts ("Select_".toList) name then
    [dtBool, dty (splitType name), dty (splitType name)]
  else if BINARY_ARGS.any (fun s => strStarts s name) then
    [dty (splitType name), dty (splitType name)]
  else if UNARY_ARGS.any (fun s => strStarts s name) then
    [dty (splitType name)]
  else List.replicate nargs dtUnknown

/-- The value of the persistent variable `type` after the prefix rules. -/
def prefixTv (name : Str) (tvar : Option Str) : Option Str :=
  if strStarts ("Select_".toList) name then some (splitType name)
  else if BINARY_ARGS.any (fun s => strStarts s name) then some (splitType name)
  else if UNARY_ARGS.any (fun s => strStarts s name) then some (splitType name)
  else tvar

theorem unary_fold (name : Str) (init : List Str) :
    UNARY_ARGS.foldl (fun a s => if strStarts s name then [dty (splitType name)] else a) init
      = if UNARY_ARGS.any (fun s => strStarts s name) then [dty (splitType name)] else init :=
  foldl_const_if _ _ _ _

theorem binary_fold (name : Str) (init : List Str) :
    BINARY_ARGS.foldl
        (fun a s => if strStarts s name then [dty (splitType name), dty (splitType name)] else a)
        init
      = if BINARY_ARGS.any (fun s => strStarts s name) then
          [dty (splitType name), dty (splitType name)]
        else init :=
  foldl_const_if _ _ _ _

theorem unary_tv_fold (name : Str) (init : Option Str) :
    UNARY_ARGS.foldl (fun t s => if strStarts s name then some (splitType name) else t) init
      = if UNARY_ARGS.any (fun s => strStarts s name) then some (splitType name) else init :=
  foldl_const_if _ _ _ _

theorem binary_tv_fold (name : Str) (init : Option Str) :
    BINARY_ARGS.foldl (fun t s => if strStarts s name then some (splitType name) else t) init
      = if BINARY_ARGS.any (fun s => strStarts s name) then some (splitType name) else init :=
  foldl_const_if _ _ _ _

/-- `resolveArgs` on an owner-qualified name (exactly one dot): the exact
table wins over the owner-agnostic bare-name lookup, which wins over the
owner-agnostic full-name lookup, which wins over the prefix rules; `type` and
`barename` are set from the split. -/
theorem resolveArgs_of_dot (A AA : ArgTable) (tvar bvar : Option Str) (line0 : Str)
    {t b : Str} (hsplit : splitOnChar '.' (nameOfLine line0) = [t, b]) :
    resolveArgs A AA tvar bvar line0 =
      .ok ((tblLookup (nameOfLine line0, nargsOf line0) A).getD
            ((tblLookup (b, nargsOf line0) AA).getD
              ((tblLookup (nameOfLine line0, nargsOf line0) AA).getD
                (prefixBase (nameOfLine line0) (nargsOf line0)))),
           some t, some b) := by
  have hdot : inStr (".".toList) (nameOfLine line0) = true := inStr_dot_of_split hsplit
  simp only [resolveArgs, unary_fold, binary_fold, hdot, if_true, hsplit, prefixBase]

/-- `resolveArgs` on a dot-free name: the exact table wins over the
owner-agnostic full-name lookup, which wins over the prefix rules; `barename`
keeps its previous value. -/
theorem resolveArgs_of_nodot (A AA : ArgTable) (tvar bvar : Option Str) (line0 : Str)
    (hnodot : inStr (".".toList) (nameOfLine line0) = false) :
    resolveArgs A AA tvar bvar line0 =
      .ok ((tblLookup (nameOfLine line0, nargsOf line0) A).getD
            ((tblLookup (nameOfLine line0, nargsOf line0) AA).getD
              (prefixBase (nameOfLine line0) (nargsOf line0))),
           prefixTv (nameOfLine line0) tvar, bvar) := by
  simp only [resolveArgs, unary_fold, binary_fold, unary_tv_fold, binary_tv_fold, hnodot,
    Bool.false_eq_true, if_false, prefixBase, prefixTv]

/-- `resolveArgs` dies with the script's `ValueError` when the name holds two
or more dots. -/
theorem resolveArgs_err_of_dots (A AA : ArgTable) (tvar bvar : Option Str) (line0 : Str)
    (h : 3 ≤ (splitOnChar '.' (nameOfLine line0)).length) :
    resolveArgs A AA tvar bvar line0 = .error .valueErr := by
  have hdot : inStr (".".toList) (nameOfLine line0) = true :=
    (inStr_singleton _ _).mpr (mem_of_splitOnChar_len (by omega))
  simp only [resolveArgs, hdot, if_true]
  rcases hs : splitOnChar '.' (nameOfLine line0) with _ | ⟨a, _ | ⟨c, _ | ⟨d, e⟩⟩⟩ <;>
    rw [hs] at h
  all_goals simp at h ⊢

end Munch

namespace Munch

/-! ### C6: round-trip arity -/

/-- **C6.** For every header line containing the markers `Arg0 … Arg(n-1)` and
not containing `Argn`, the default rule resolves the arity to exactly `n`,
producing a default argument list of `n` `DType(Unknown)` entries. -/
theorem roundtrip_arity (line0 : Str) (n : Nat)
    (hpresent : ∀ k, k < n → inStr (argMarker k) line0 = true)
    (habsent : inStr (argMarker n) line0 = false) :
    nargsOf line0 = n ∧
    List.replicate (nargsOf line0) dtUnknown = List.replicate n dtUnknown := by
  have hn : n ≤ 10 ^ line0.length := by
    cases n with
    | zero => exact Nat.zero_le _
    | succ n' =>
      have hm := hpresent n' (Nat.lt_succ_self n')
      have hlen := inStr_length_le hm
      rw [argMarker_length] at hlen
      have hdl : (decimal n').length ≤ line0.length := by omega
      have h1 : n' < 10 ^ (decimal n').length := decimal_lt n'
      have h2 : (10 : Nat) ^ (decimal n').length ≤ 10 ^ line0.length :=
        Nat.pow_le_pow_right (by omega) hdl
      omega
  have := countArgsFrom_eq line0 (10 ^ line0.length) n 0
    (fun k hk1 hk2 => hpresent k (by omega))
    (by simpa using habsent)
    hn
  refine ⟨?_, ?_⟩
  · simpa [nargsOf] using this
  · have h : nargsOf line0 = n := by simpa [nargsOf] using this
    rw [h]

/-- Witness for C6 at the concrete header `Foo(Arg0,Arg1)`. -/
theorem roundtrip_arity_witness :
    inStr (argMarker 0) ("Foo(Arg0,Arg1)".toList) = true ∧
    inStr (argMarker 1) ("Foo(Arg0,Arg1)".toList) = true ∧
    inStr (argMarker 2) ("Foo(Arg0,Arg1)".toList) = false ∧
    nargsOf ("Foo(Arg0,Arg1)".toList) = 2 := by
  refine ⟨by decide, by decide, by decide, ?_⟩
  exact (roundtrip_arity ("Foo(Arg0,Arg1)".toList) 2 (by decide) (by decide)).1

/-! ### C9: prefix pattern rules fix the arity -/

theorem unary_binary_disjoint :
    ∀ u ∈ UNARY_ARGS, ∀ b ∈ BINARY_ARGS,
      strStarts u b = false ∧ strStarts b u = false := by decide

theorem unary_select_disjoint :
    ∀ u ∈ UNARY_ARGS,
      strStarts u ("Select_".toList) = false ∧ strStarts ("Select_".toList) u = false := by decide

theorem binary_select_disjoint :
    ∀ b ∈ BINARY_ARGS,
      strStarts b ("Select_".toList) = false ∧ strStarts ("Select_".toList) b = false := by decide

/-- If some unary token matches, no binary token can match the same name. -/
theorem no_binary_of_unary {name : Str}
    (hu : UNARY_ARGS.any (fun s => strStarts s name) = true) :
    BINARY_ARGS.any (fun s => strStarts s name) = false := by
  by_contra hb
  rw [Bool.not_eq_false] at hb
  obtain ⟨u, humem, hustart⟩ := List.any_eq_true.mp hu
  obtain ⟨bb, hbmem, hbstart⟩ := List.any_eq_true.mp hb
  rcases strStarts_total name u bb hustart hbstart with h | h
  · rw [(unary_binary_disjoint u humem bb hbmem).1] at h; exact Bool.false_ne_true h
  · rw [(unary_binary_disjoint u humem bb hbmem).2] at h; exact Bool.false_ne_true h

/-- If some unary token matches, `Select_` cannot match the same name. -/
theorem no_select_of_unary {name : Str}
    (hu : UNARY_ARGS.any (fun s => strStarts s name) = true) :
    strStarts ("Select_".toList) name = false := by
  by_contra hs
  rw [Bool.not_eq_false] at hs
  obtain ⟨u, humem, hustart⟩ := List.any_eq_true.mp hu
  rcases strStarts_total name u ("Select_".toList) hustart hs with h | h
  · rw [(unary_select_disjoint u humem).1] at h; exact Bool.false_ne_true h
  · rw [(unary_select_disjoint u humem).2] at h; exact Bool.false_ne_true h

/-- If some binary token matches, `Select_` cannot match the same name. -/
theorem no_select_of_binary {name : Str}
    (hb : BINARY_ARGS.any (fun s => strStarts s name) = true) :
    strStarts ("Select_".toList) name = false := by
  by_contra hs
  rw [Bool.not_eq_false] at hs
  obtain ⟨bb, hbmem, hbstart⟩ := List.any_eq_true.mp hb
  rcases strStarts_total name bb ("Select_".toList) hbstart hs with h | h
  · rw [(binary_select_disjoint bb hbmem).1] at h; exact Bool.false_ne_true h
  · rw [(binary_select_disjoint bb hbmem).2] at h; exact Bool.false_ne_true h

/-- The resolved argument list when no override applies: the prefix rules. -/
theorem resolveArgs_no_override (A AA : ArgTable) (tvar bvar : Option Str) (line0 : Str)
    {args : List Str} {tv bv : Option Str}
    (hAAname : tblLookup (nameOfLine line0, nargsOf line0) AA = none)
    (hAAbare : ∀ t b, splitOnChar '.' (nameOfLine line0) = [t, b] →
      tblLookup (b, nargsOf line0) AA = none)
    (hA : tblLookup (nameOfLine line0, nargsOf line0) A = none)
    (hres : resolveArgs A AA tvar bvar line0 = .ok (args, tv, bv)) :
    args = prefixBase (nameOfLine line0) (nargsOf line0) := by
  by_cases hdot : inStr (".".toList) (nameOfLine line0) = true
  · have hlen : 2 ≤ (splitOnChar '.' (nameOfLine line0)).length :=
      two_le_splitOnChar_of_mem ((inStr_singleton '.' _).mp hdot)
    rcases hs : splitOnChar '.' (nameOfLine line0) with _ | ⟨x, _ | ⟨y, _ | z⟩⟩
    · exact absurd hs (splitOnChar_ne_nil _ _)
    · rw [hs] at hlen; simp at hlen
    · rw [resolveArgs_of_dot A AA tvar bvar line0 hs] at hres
      rw [hA, hAAname, hAAbare x y hs] at hres
      injection hres with hres
      have := congrArg Prod.fst hres
      simp at this
      exact this.symm
    · rw [resolveArgs_err_of_dots A AA tvar bvar line0 (by rw [hs]; simp)] at hres
      exact absurd hres (by simp)
  · rw [Bool.not_eq_true] at hdot
    rw [resolveArgs_of_nodot A AA tvar bvar line0 hdot] at hres
    rw [hA, hAAname] at hres
    injection hres with hres
    have := congrArg Prod.fst hres
    simp at this
    exact this.symm

/-- **C9.** The prefix pattern rules override the machine-derived arity, not
just the argument types: a name starting with a unary token resolves (absent
any override) to exactly one argument, a binary token to exactly two, and the
`Select_` prefix to exactly three with first element `DType(bool)`, no matter
how many `Arg` markers the header has. -/
theorem prefix_rules_fix_arity :
    (∀ (A AA : ArgTable) (tvar bvar : Option Str) (line0 : Str)
       (args : List Str) (tv bv : Option Str),
      UNARY_ARGS.any (fun s => strStarts s (nameOfLine line0)) = true →
      tblLookup (nameOfLine line0, nargsOf line0) AA = none →
      (∀ t b, splitOnChar '.' (nameOfLine line0) = [t, b] →
        tblLookup (b, nargsOf line0) AA = none) →
      tblLookup (nameOfLine line0, nargsOf line0) A = none →
      resolveArgs A AA tvar bvar line0 = .ok (args, tv, bv) →
      args.length = 1) ∧
    (∀ (A AA : ArgTable) (tvar bvar : Option Str) (line0 : Str)
       (args : List Str) (tv bv : Option Str),
      BINARY_ARGS.any (fun s => strStarts s (nameOfLine line0)) = true →
      tblLookup (nameOfLine line0, nargsOf line0) AA = none →
      (∀ t b, splitOnChar '.' (nameOfLine line0) = [t, b] →
        tblLookup (b, nargsOf line0) AA = none) →
      tblLookup (nameOfLine line0, nargsOf line0) A = none →
      resolveArgs A AA tvar bvar line0 = .ok (args, tv, bv) →
      args.length = 2) ∧
    (∀ (A AA : ArgTable) (tvar bvar : Option Str) (line0 : Str)
       (args : List Str) (tv bv : Option Str),
      strStarts ("Select_".toList) (nameOfLine line0) = true →
      tblLookup (nameOfLine line0, nargsOf line0) AA = none →
      (∀ t b, splitOnChar '.' (nameOfLine line0) = [t, b] →
        tblLookup (b, nargsOf line0) AA = none) →
      tblLookup (nameOfLine line0, nargsOf line0) A = none →
      resolveArgs A AA tvar bvar line0 = .ok (args, tv, bv) →
      args.length = 3 ∧ args.headD [] = dtBool) := by
  refine ⟨?_, ?_, ?_⟩
  · intro A AA tvar bvar line0 args tv bv hu hAAname hAAbare hA hres
    rw [resolveArgs_no_override A AA tvar bvar line0 hAAname hAAbare hA hres]
    rw [prefixBase, if_neg, if_neg, if_pos hu]
    · rfl
    · rw [no_binary_of_unary hu]; simp
    · rw [no_select_of_unary hu]; simp
  · intro A AA tvar bvar line0 args tv bv hb hAAname hAAbare hA hres
    rw [resolveArgs_no_override A AA tvar bvar line0 hAAname hAAbare hA hres]
    rw [prefixBase, if_neg, if_pos hb]
    · rfl
    · rw [no_select_of_binary hb]; simp
  · intro A AA tvar bvar line0 args tv bv hs hAAname hAAbare hA hres
    rw [resolveArgs_no_override A AA tvar bvar line0 hAAname hAAbare hA hres]
    rw [prefixBase, if_pos hs]
    exact ⟨rfl, rfl⟩

/-- Witness for C9: `Abs_int` (header has no markers), `Add_int(Arg0)` and
`Select_value(Arg0)` (headers with one marker) resolve to argument lists of
lengths 1, 2, and 3 under the production tables. -/
theorem prefix_rules_fix_arity_witness :
    (UNARY_ARGS.any (fun s => strStarts s (nameOfLine ("Abs_int".toList))) = true ∧
      resolveArgs ARGS_OVERRIDE ARGS_OVERRIDE_ANY none none ("Abs_int".toList)
        = .ok (["DType(int)".toList], some ("int".toList), none) ∧
      ([("DType(int)".toList)] : List Str).length = 1) ∧
    (BINARY_ARGS.any (fun s => strStarts s (nameOfLine ("Add_int(Arg0)".toList))) = true ∧
      resolveArgs ARGS_OVERRIDE ARGS_OVERRIDE_ANY none none ("Add_int(Arg0)".toList)
        = .ok (["DType(int)".toList, "DType(int)".toList], some ("int".toList), none) ∧
      ([("DType(int)".toList), ("DType(int)".toList)] : List Str).length = 2) ∧
    (strStarts ("Select_".toList) (nameOfLine ("Select_value(Arg0)".toList)) = true ∧
      resolveArgs ARGS_OVERRIDE ARGS_OVERRIDE_ANY none none ("Select_value(Arg0)".toList)
        = .ok ([dtBool, "DType(value)".toList, "DType(value)".toList],
               some ("value".toList), none) ∧
      ([dtBool, "DType(value)".toList, "DType(value)".toList] : List Str).length = 3 ∧
      ([dtBool, "DType(value)".toList, "DType(value)".toList] : List Str).headD [] = dtBool) := by
  have noBare : ∀ (line0 : Str), (splitOnChar '.' (nameOfLine line0)).length = 1 →
      ∀ t b, splitOnChar '.' (nameOfLine line0) = [t, b] →
        tblLookup (b, nargsOf line0) ARGS_OVERRIDE_ANY = none := by
    intro line0 hone t b h
    have hl := congrArg List.length h
    rw [hone] at hl
    simp at hl
  refine ⟨⟨by decide, rfl, ?_⟩, ⟨by decide, rfl, ?_⟩, ⟨by decide, rfl, ?_⟩⟩
  · exact prefix_rules_fix_arity.1 ARGS_OVERRIDE ARGS_OVERRIDE_ANY none none
      ("Abs_int".toList) ["DType(int)".toList] (some ("int".toList)) none
      (by decide) (by decide) (noBare _ (by decide)) (by decide) rfl
  · exact prefix_rules_fix_arity.2.1 ARGS_OVERRIDE ARGS_OVERRIDE_ANY none none
      ("Add_int(Arg0)".toList) ["DType(int)".toList, "DType(int)".toList]
      (some ("int".toList)) none
      (by decide) (by decide) (noBare _ (by decide)) (by decide) rfl
  · exact prefix_rules_fix_arity.2.2 ARGS_OVERRIDE ARGS_OVERRIDE_ANY none none
      ("Select_value(Arg0)".toList)
      [dtBool, "DType(value)".toList, "DType(value)".toList]
      (some ("value".toList)) none
      (by decide) (by decide) (noBare _ (by decide)) (by decide) rfl

end Munch

namespace Munch

/-! ### C1: argument-override precedence -/

/-- The bare (owner-stripped) name: the part after the dot for an
owner-qualified name, the name itself otherwise. -/
def bareNameOf (name : Str) : Str :=
  match splitOnChar '.' name with
  | [_, b] => b
  | _ => name

/-- No arity-1 key of the exact-match table starts with a prefix-pattern
token, so a prefix-matched name with an owner-agnostic override can never
also hit the exact-match table. -/
theorem override_key_clash :
    ∀ p ∈ ARGS_OVERRIDE, p.1.2 = 1 →
      ((UNARY_ARGS ++ BINARY_ARGS ++ [("Select_".toList)]).any
        (fun s => strStarts s p.1.1)) = false := by decide

/-- **C1.** Argument-list resolution precedence: an exact-match
`(QualifiedName, arity)` override beats a simultaneous owner-agnostic
`(bareName, arity)` override; and (with the production tables) an
owner-agnostic override beats a simultaneous prefix-pattern match. -/
theorem override_precedence :
    (∀ (A AA : ArgTable) (tvar bvar : Option Str) (line0 : Str)
       (v w args : List Str) (tv bv : Option Str),
      tblLookup (nameOfLine line0, nargsOf line0) A = some v →
      tblLookup (bareNameOf (nameOfLine line0), nargsOf line0) AA = some w →
      resolveArgs A AA tvar bvar line0 = .ok (args, tv, bv) →
      args = v) ∧
    (∀ (tvar bvar : Option Str) (line0 : Str)
       (w args : List Str) (tv bv : Option Str),
      (UNARY_ARGS ++ BINARY_ARGS ++ [("Select_".toList)]).any
        (fun s => strStarts s (nameOfLine line0)) = true →
      tblLookup (bareNameOf (nameOfLine line0), nargsOf line0) ARGS_OVERRIDE_ANY = some w →
      resolveArgs ARGS_OVERRIDE ARGS_OVERRIDE_ANY tvar bvar line0 = .ok (args, tv, bv) →
      args = w) := by
  constructor
  · intro A AA tvar bvar line0 v w args tv bv hA hAA hres
    by_cases hdot : inStr (".".toList) (nameOfLine line0) = true
    · have hlen : 2 ≤ (splitOnChar '.' (nameOfLine line0)).length :=
        two_le_splitOnChar_of_mem ((inStr_singleton '.' _).mp hdot)
      rcases hs : splitOnChar '.' (nameOfLine line0) with _ | ⟨x, _ | ⟨y, _ | z⟩⟩
      · exact absurd hs (splitOnChar_ne_nil _ _)
      · rw [hs] at hlen; simp at hlen
      · rw [resolveArgs_of_dot A AA tvar bvar line0 hs, hA] at hres
        injection hres with hres
        have := congrArg Prod.fst hres
        simp at this
        exact this.symm
      · rw [resolveArgs_err_of_dots A AA tvar bvar line0 (by rw [hs]; simp)] at hres
        exact absurd hres (by simp)
    · rw [Bool.not_eq_true] at hdot
      rw [resolveArgs_of_nodot A AA tvar bvar line0 hdot, hA] at hres
      injection hres with hres
      have := congrArg Prod.fst hres
      simp at this
      exact this.symm
  · intro tvar bvar line0 w args tv bv hpre hAA hres
    by_cases hdot : inStr (".".toList) (nameOfLine line0) = true
    · have hlen : 2 ≤ (splitOnChar '.' (nameOfLine line0)).length :=
        two_le_splitOnChar_of_mem ((inStr_singleton '.' _).mp hdot)
      rcases hs : splitOnChar '.' (nameOfLine line0) with _ | ⟨x, _ | ⟨y, _ | z⟩⟩
      · exact absurd hs (splitOnChar_ne_nil _ _)
      · rw [hs] at hlen; simp at hlen
      · have hbare : bareNameOf (nameOfLine line0) = y := by
          rw [bareNameOf, hs]
        rw [hbare] at hAA
        have hmem := tblLookup_mem hAA
        have hn1 : nargsOf line0 = 1 := by
          simp only [ARGS_OVERRIDE_ANY, List.mem_cons, List.not_mem_nil, or_false] at hmem
          rcases hmem with h | h
          · exact (congrArg (fun q => q.1.2) h)
          · exact (congrArg (fun q => q.1.2) h)
        have hAnone : tblLookup (nameOfLine line0, nargsOf line0) ARGS_OVERRIDE = none := by
          rcases ha : tblLookup (nameOfLine line0, nargsOf line0) ARGS_OVERRIDE with _ | v
          · rfl
          · exfalso
            have hamem := tblLookup_mem ha
            have := override_key_clash _ hamem hn1
            rw [this] at hpre
            exact Bool.false_ne_true hpre
        rw [resolveArgs_of_dot ARGS_OVERRIDE ARGS_OVERRIDE_ANY tvar bvar line0 hs,
          hAnone, hAA] at hres
        injection hres with hres
        have := congrArg Prod.fst hres
        simp at this
        exact this.symm
      · rw [resolveArgs_err_of_dots ARGS_OVERRIDE ARGS_OVERRIDE_ANY tvar bvar line0
          (by rw [hs]; simp)] at hres
        exact absurd hres (by simp)
    · rw [Bool.not_eq_true] at hdot
      have hnmem : '.' ∉ nameOfLine line0 := fun hc =>
        Bool.false_ne_true (hdot ▸ (inStr_singleton '.' _).mpr hc)
      have hone : splitOnChar '.' (nameOfLine line0) = [nameOfLine line0] :=
        splitOnChar_of_not_mem hnmem
      have hbare : bareNameOf (nameOfLine line0) = nameOfLine line0 := by
        rw [bareNameOf, hone]
      rw [hbare] at hAA
      have hmem := tblLookup_mem hAA
      exfalso
      simp only [ARGS_OVERRIDE_ANY, List.mem_cons, List.not_mem_nil, or_false] at hmem
      rcases hmem with h | h
      · have hname : nameOfLine line0 = "Custom".toList := congrArg (fun q => q.1.1) h
        rw [hname] at hpre
        exact Bool.false_ne_true ((by decide : ((UNARY_ARGS ++ BINARY_ARGS ++
          [("Select_".toList)]).any (fun s => strStarts s ("Custom".toList))) = false) ▸ hpre)
      · have hname : nameOfLine line0 = "GetName".toList := congrArg (fun q => q.1.1) h
        rw [hname] at hpre
        exact Bool.false_ne_true ((by decide : ((UNARY_ARGS ++ BINARY_ARGS ++
          [("Select_".toList)]).any (fun s => strStarts s ("GetName".toList))) = false) ▸ hpre)

/-- Witness for C1: `FaithDoctrine.GetName(Arg0)` hits both the exact table
and the owner-agnostic table and resolves to the exact entry `DType(Faith)`;
`Abs_z.GetName(Arg0)` matches the unary prefix pattern and the owner-agnostic
table and resolves to the owner-agnostic entry `DType(Character)`. -/
theorem override_precedence_witness :
    (tblLookup (nameOfLine ("FaithDoctrine.GetName(Arg0)".toList),
        nargsOf ("FaithDoctrine.GetName(Arg0)".toList)) ARGS_OVERRIDE
        = some ["DType(Faith)".toList] ∧
     tblLookup (bareNameOf (nameOfLine ("FaithDoctrine.GetName(Arg0)".toList)),
        nargsOf ("FaithDoctrine.GetName(Arg0)".toList)) ARGS_OVERRIDE_ANY
        = some ["DType(Character)".toList] ∧
     resolveArgs ARGS_OVERRIDE ARGS_OVERRIDE_ANY none none
        ("FaithDoctrine.GetName(Arg0)".toList)
        = .ok (["DType(Faith)".toList], some ("FaithDoctrine".toList),
               some ("GetName".toList)) ∧
     (["DType(Faith)".toList] : List Str) = ["DType(Faith)".toList]) ∧
    ((UNARY_ARGS ++ BINARY_ARGS ++ [("Select_".toList)]).any
        (fun s => strStarts s (nameOfLine ("Abs_z.GetName(Arg0)".toList))) = true ∧
     tblLookup (bareNameOf (nameOfLine ("Abs_z.GetName(Arg0)".toList)),
        nargsOf ("Abs_z.GetName(Arg0)".toList)) ARGS_OVERRIDE_ANY
        = some ["DType(Character)".toList] ∧
     resolveArgs ARGS_OVERRIDE ARGS_OVERRIDE_ANY none none ("Abs_z.GetName(Arg0)".toList)
        = .ok (["DType(Character)".toList], some ("Abs_z".toList),
               some ("GetName".toList)) ∧
     (["DType(Character)".toList] : List Str) = ["DType(Character)".toList]) := by
  refine ⟨⟨by decide, by decide, rfl, ?_⟩, ⟨by decide, by decide, rfl, ?_⟩⟩
  · exact override_precedence.1 ARGS_OVERRIDE ARGS_OVERRIDE_ANY none none
      ("FaithDoctrine.GetName(Arg0)".toList)
      ["DType(Faith)".toList] ["DType(Character)".toList] ["DType(Faith)".toList]
      (some ("FaithDoctrine".toList)) (some ("GetName".toList))
      (by decide) (by decide) rfl
  · exact override_precedence.2 none none ("Abs_z.GetName(Arg0)".toList)
      ["DType(Character)".toList] ["DType(Character)".toList]
      (some ("Abs_z".toList)) (some ("GetName".toList))
      (by decide) (by decide) rfl

end Munch

namespace Munch

/-! ### Branch characterisations of `processItem` -/

theorem processItem_skip_branch (A AA : ArgTable) (RT : RetTable) (st : MState) (item : Str)
    {line0 : Str} {rest : List Str} {args : List Str} {tv bv : Option Str}
    (hne : item ≠ [])
    (hl : splitlines item = line0 :: rest)
    (hres : resolveArgs A AA st.tvar st.bvar line0 = .ok (args, tv, bv))
    (hmac : inStr ("Definition type: Global macro".toList) item = true) :
    processItem A AA RT st item = .ok { st with tvar := tv, bvar := bv } := by
  simp only [processItem, itemBody, if_neg hne, hl, hres, hmac, if_true, applyDelta,
    List.append_nil]

theorem processItem_type (A AA : ArgTable) (RT : RetTable) (st : MState) (item : Str)
    {line0 : Str} {rest : List Str} {args : List Str} {tv bv : Option Str}
    (hne : item ≠ [])
    (hl : splitlines item = line0 :: rest)
    (hres : resolveArgs A AA st.tvar st.bvar line0 = .ok (args, tv, bv))
    (hmac : inStr ("Definition type: Global macro".toList) item = false)
    (hty : inStr ("Definition type: Type".toList) item = true) :
    processItem A AA RT st item =
      .ok { st with
            types :=
              if ("    ".toList ++ nameOfLine line0 ++ ",\n".toList) ∈ st.types then st.types
              else st.types ++ [("    ".toList ++ nameOfLine line0 ++ ",\n".toList)],
            tvar := tv, bvar := bv } := by
  simp only [processItem, itemBody, if_neg hne, hl, hres, hmac, hty, Bool.false_eq_true,
    if_false, if_true, applyDelta, List.append_nil]

theorem processItem_gp (A AA : ArgTable) (RT : RetTable) (st : MState) (item : Str)
    {line0 : Str} {rest : List Str} {args : List Str} {tv bv : Option Str}
    {p0 p1 : Str} {prest : List Str}
    (hne : item ≠ [])
    (hl : splitlines item = line0 :: rest)
    (hres : resolveArgs A AA st.tvar st.bvar line0 = .ok (args, tv, bv))
    (hmac : inStr ("Definition type: Global macro".toList) item = false)
    (hty : inStr ("Definition type: Type".toList) item = false)
    (hr : splitOnList ("Return type: ".toList) ((line0 :: rest).getLastD [])
            = p0 :: p1 :: prest)
    (hgp : inStr ("\nDefinition type: Global promote\n".toList) item = true) :
    processItem A AA RT st item =
      .ok { st with
            gp := st.gp ++
              [gRec (nameOfLine line0) (argsWrap args) (retResolve RT (nameOfLine line0) p1)],
            tvar := tv, bvar := bv } := by
  simp only [processItem, itemBody, if_neg hne, hl, hres, hmac, hty, hr, hgp,
    Bool.false_eq_true, if_false, if_true, applyDelta, List.append_nil]

theorem processItem_gf (A AA : ArgTable) (RT : RetTable) (st : MState) (item : Str)
    {line0 : Str} {rest : List Str} {args : List Str} {tv bv : Option Str}
    {p0 p1 : Str} {prest : List Str}
    (hne : item ≠ [])
    (hl : splitlines item = line0 :: rest)
    (hres : resolveArgs A AA st.tvar st.bvar line0 = .ok (args, tv, bv))
    (hmac : inStr ("Definition type: Global macro".toList) item = false)
    (hty : inStr ("Definition type: Type".toList) item = false)
    (hr : splitOnList ("Return type: ".toList) ((line0 :: rest).getLastD [])
            = p0 :: p1 :: prest)
    (hgp : inStr ("\nDefinition type: Global promote\n".toList) item = false)
    (hgf : inStr ("\nDefinition type: Global function\n".toList) item = true) :
    processItem A AA RT st item =
      .ok { st with
            gf := st.gf ++
              [gRec (nameOfLine line0) (argsWrap args) (retResolve RT (nameOfLine line0) p1)],
            tvar := tv, bvar := bv } := by
  simp only [processItem, itemBody, if_neg hne, hl, hres, hmac, hty, hr, hgp, hgf,
    Bool.false_eq_true, if_false, if_true, applyDelta, List.append_nil]

theorem processItem_fn (A AA : ArgTable) (RT : RetTable) (st : MState) (item : Str)
    {line0 : Str} {rest : List Str} {args : List Str} {t b : Str}
    {p0 p1 : Str} {prest : List Str}
    (hne : item ≠ [])
    (hl : splitlines item = line0 :: rest)
    (hres : resolveArgs A AA st.tvar st.bvar line0 = .ok (args, some t, some b))
    (hmac : inStr ("Definition type: Global macro".toList) item = false)
    (hty : inStr ("Definition type: Type".toList) item = false)
    (hr : splitOnList ("Return type: ".toList) ((line0 :: rest).getLastD [])
            = p0 :: p1 :: prest)
    (hgp : inStr ("\nDefinition type: Global promote\n".toList) item = false)
    (hgf : inStr ("\nDefinition type: Global function\n".toList) item = false)
    (hfn : inStr ("\nDefinition type: Function\n".toList) item = true) :
    processItem A AA RT st item =
      .ok { st with
            fn := st.fn ++
              [mRec b t (argsWrap args)
                (if b = "AccessSelf".toList ∨ b = "Self".toList then t
                 else retResolve RT (nameOfLine line0) p1)],
            tvar := some t, bvar := some b } := by
  simp only [processItem, itemBody, if_neg hne, hl, hres, hmac, hty, hr, hgp, hgf, hfn,
    Bool.false_eq_true, if_false, if_true, applyDelta, List.append_nil]

theorem processItem_pr (A AA : ArgTable) (RT : RetTable) (st : MState) (item : Str)
    {line0 : Str} {rest : List Str} {args : List Str} {t b : Str}
    {p0 p1 : Str} {prest : List Str}
    (hne : item ≠ [])
    (hl : splitlines item = line0 :: rest)
    (hres : resolveArgs A AA st.tvar st.bvar line0 = .ok (args, some t, some b))
    (hmac : inStr ("Definition type: Global macro".toList) item = false)
    (hty : inStr ("Definition type: Type".toList) item = false)
    (hr : splitOnList ("Return type: ".toList) ((line0 :: rest).getLastD [])
            = p0 :: p1 :: prest)
    (hgp : inStr ("\nDefinition type: Global promote\n".toList) item = false)
    (hgf : inStr ("\nDefinition type: Global function\n".toList) item = false)
    (hfn : inStr ("\nDefinition type: Function\n".toList) item = false)
    (hpr : inStr ("\nDefinition type: Promote\n".toList) item = true) :
    processItem A AA RT st item =
      .ok { st with
            pr := st.pr ++
              [mRec b t (argsWrap args) (retResolve RT (nameOfLine line0) p1)],
            tvar := some t, bvar := some b } := by
  simp only [processItem, itemBody, if_neg hne, hl, hres, hmac, hty, hr, hgp, hgf, hfn, hpr,
    Bool.false_eq_true, if_false, if_true, applyDelta, List.append_nil]

theorem processItem_unknown (A AA : ArgTable) (RT : RetTable) (st : MState) (item : Str)
    {line0 : Str} {rest : List Str} {args : List Str} {tv bv : Option Str}
    {p0 p1 : Str} {prest : List Str}
    (hne : item ≠ [])
    (hl : splitlines item = line0 :: rest)
    (hres : resolveArgs A AA st.tvar st.bvar line0 = .ok (args, tv, bv))
    (hmac : inStr ("Definition type: Global macro".toList) item = false)
    (hty : inStr ("Definition type: Type".toList) item = false)
    (hr : splitOnList ("Return type: ".toList) ((line0 :: rest).getLastD [])
            = p0 :: p1 :: prest)
    (hgp : inStr ("\nDefinition type: Global promote\n".toList) item = false)
    (hgf : inStr ("\nDefinition type: Global function\n".toList) item = false)
    (hfn : inStr ("\nDefinition type: Function\n".toList) item = false)
    (hpr : inStr ("\nDefinition type: Promote\n".toList) item = false) :
    processItem A AA RT st item = .error (.unknownItem item) := by
  simp only [processItem, itemBody, if_neg hne, hl, hres, hmac, hty, hr, hgp, hgf, hfn, hpr,
    Bool.false_eq_true, if_false, if_true]

theorem processItem_noret (A AA : ArgTable) (RT : RetTable) (st : MState) (item : Str)
    {line0 : Str} {rest : List Str} {args : List Str} {tv bv : Option Str}
    (hne : item ≠ [])
    (hl : splitlines item = line0 :: rest)
    (hres : resolveArgs A AA st.tvar st.bvar line0 = .ok (args, tv, bv))
    (hmac : inStr ("Definition type: Global macro".toList) item = false)
    (hty : inStr ("Definition type: Type".toList) item = false)
    (hr : (splitOnList ("Return type: ".toList) ((line0 :: rest).getLastD [])).length ≤ 1) :
    processItem A AA RT st item = .error .indexErr := by
  rcases hsplit : splitOnList ("Return type: ".toList) ((line0 :: rest).getLastD [])
    with _ | ⟨q0, _ | ⟨q1, qrest⟩⟩
  · simp only [processItem, itemBody, if_neg hne, hl, hres, hmac, hty, hsplit,
      Bool.false_eq_true, if_false]
  · simp only [processItem, itemBody, if_neg hne, hl, hres, hmac, hty, hsplit,
      Bool.false_eq_true, if_false]
  · rw [hsplit] at hr; simp at hr

theorem processItem_resErr (A AA : ArgTable) (RT : RetTable) (st : MState) (item : Str)
    {line0 : Str} {rest : List Str} {e : Err}
    (hne : item ≠ [])
    (hl : splitlines item = line0 :: rest)
    (hres : resolveArgs A AA st.tvar st.bvar line0 = .error e) :
    processItem A AA RT st item = .error e := by
  simp only [processItem, itemBody, if_neg hne, hl, hres]

end Munch

namespace Munch

/-- The first component (the argument list) of `resolveArgs` does not depend
on the incoming values of the persistent variables `type`/`barename`. -/
theorem resolveArgs_fst_indep (A AA : ArgTable) (tv1 bv1 tv2 bv2 : Option Str) (line0 : Str) :
    (resolveArgs A AA tv1 bv1 line0).map (fun p => p.1) =
    (resolveArgs A AA tv2 bv2 line0).map (fun p => p.1) := by
  by_cases hdot : inStr (".".toList) (nameOfLine line0) = true
  · have hlen : 2 ≤ (splitOnChar '.' (nameOfLine line0)).length :=
      two_le_splitOnChar_of_mem ((inStr_singleton '.' _).mp hdot)
    rcases hs : splitOnChar '.' (nameOfLine line0) with _ | ⟨x, _ | ⟨y, _ | z⟩⟩
    · exact absurd hs (splitOnChar_ne_nil _ _)
    · rw [hs] at hlen; simp at hlen
    · rw [resolveArgs_of_dot A AA tv1 bv1 line0 hs, resolveArgs_of_dot A AA tv2 bv2 line0 hs]
    · rw [resolveArgs_err_of_dots A AA tv1 bv1 line0 (by rw [hs]; simp),
        resolveArgs_err_of_dots A AA tv2 bv2 line0 (by rw [hs]; simp)]
  · rw [Bool.not_eq_true] at hdot
    rw [resolveArgs_of_nodot A AA tv1 bv1 line0 hdot,
      resolveArgs_of_nodot A AA tv2 bv2 line0 hdot]
    rfl

/-- `resolveArgs` succeeds whenever the name holds at most one dot. -/
theorem resolveArgs_ok_of_few_dots (A AA : ArgTable) (tvar bvar : Option Str) (line0 : Str)
    (h : (splitOnChar '.' (nameOfLine line0)).length ≤ 2) :
    ∃ args tv bv, resolveArgs A AA tvar bvar line0 = .ok (args, tv, bv) := by
  by_cases hdot : inStr (".".toList) (nameOfLine line0) = true
  · have hlen : 2 ≤ (splitOnChar '.' (nameOfLine line0)).length :=
      two_le_splitOnChar_of_mem ((inStr_singleton '.' _).mp hdot)
    rcases hs : splitOnChar '.' (nameOfLine line0) with _ | ⟨x, _ | ⟨y, _ | z⟩⟩
    · exact absurd hs (splitOnChar_ne_nil _ _)
    · rw [hs] at hlen; simp at hlen
    · exact ⟨_, _, _, resolveArgs_of_dot A AA tvar bvar line0 hs⟩
    · rw [hs] at h; simp at h
  · rw [Bool.not_eq_true] at hdot
    exact ⟨_, _, _, resolveArgs_of_nodot A AA tvar bvar line0 hdot⟩

/-- A classification-tag hit forces the block to be non-empty. -/
theorem ne_nil_of_inStr {x item : Str} (hx : x ≠ []) (h : inStr x item = true) :
    item ≠ [] := by
  intro he
  subst he
  rw [show inStr x [] = x.isEmpty from rfl] at h
  rw [List.isEmpty_iff] at h
  exact hx h

end Munch

namespace Munch

/-! ### C3: GlobalMacro items leave the symbol table untouched -/

/-- **C3 (amended).** An item carrying the `Global macro` tag contributes
nothing: whenever the loop body completes on it, every one of the five
collections is exactly as before.  (The script does *not* collect or count
macros anywhere — the `continue` is bare — so the claimed side channel does
not exist; this theorem records what actually happens.) -/
theorem macro_not_recorded (A AA : ArgTable) (RT : RetTable) (st : MState) (item : Str)
    (st' : MState)
    (hmac : inStr ("Definition type: Global macro".toList) item = true)
    (hok : processItem A AA RT st item = .ok st') :
    st'.types = st.types ∧ st'.gp = st.gp ∧ st'.gf = st.gf ∧
    st'.fn = st.fn ∧ st'.pr = st.pr := by
  have hne : item ≠ [] := ne_nil_of_inStr (by decide) hmac
  rcases hl : splitlines item with _ | ⟨line0, rest⟩
  · exact absurd hl (splitlines_ne_nil hne)
  · rcases hres : resolveArgs A AA st.tvar st.bvar line0 with e | ⟨args, tv, bv⟩
    · rw [processItem_resErr A AA RT st item hne hl hres] at hok
      exact absurd hok (by simp)
    · rw [processItem_skip_branch A AA RT st item hne hl hres hmac] at hok
      injection hok with hok
      subst hok
      exact ⟨rfl, rfl, rfl, rfl, rfl⟩

/-- Witness for C3: a concrete macro block processed from the initial state
leaves the state exactly at `initState`. -/
theorem macro_not_recorded_witness :
    inStr ("Definition type: Global macro".toList)
      ("SomeMacro\nDefinition type: Global macro".toList) = true ∧
    processItem ARGS_OVERRIDE ARGS_OVERRIDE_ANY RTYPE_OVERRIDE initState
      ("SomeMacro\nDefinition type: Global macro".toList) = .ok initState ∧
    initState.types = initState.types ∧ initState.gp = initState.gp ∧
    initState.gf = initState.gf ∧ initState.fn = initState.fn ∧
    initState.pr = initState.pr := by
  have hok : processItem ARGS_OVERRIDE ARGS_OVERRIDE_ANY RTYPE_OVERRIDE initState
      ("SomeMacro\nDefinition type: Global macro".toList) = .ok initState := by rfl
  refine ⟨by decide, hok, ?_⟩
  exact macro_not_recorded ARGS_OVERRIDE ARGS_OVERRIDE_ANY RTYPE_OVERRIDE initState
    ("SomeMacro\nDefinition type: Global macro".toList) initState (by decide) hok

/-- The original C1-adjacent reading of C3 also claimed a side channel that
the caller can inspect.  This run shows there is none: a macro-only input
leaves the final state literally identical to the seeded initial state, so
nothing anywhere records that a macro was ever seen. -/
theorem macro_no_side_channel :
    runMainOk ["SomeMacro\nDefinition type: Global macro".toList] = some initState := by
  rfl

end Munch

namespace Munch

/-! ### C4: the self-reference rule -/

/-- **C4.** An instance method whose bare name is `AccessSelf` or `Self` is
recorded in the Functions table with return type equal to its owner type —
for **every** return-override table `RT`, in particular ones carrying a
conflicting entry for that very name. -/
theorem self_reference_rule (A AA : ArgTable) (RT : RetTable) (st : MState) (item : Str)
    (t b : Str) (args : List Str) (tvx bvx : Option Str) (st' : MState)
    (hsplit : splitOnChar '.' (nameOfLine ((splitlines item).headD [])) = [t, b])
    (hb : b = "AccessSelf".toList ∨ b = "Self".toList)
    (hres : resolveArgs A AA st.tvar st.bvar ((splitlines item).headD [])
              = .ok (args, tvx, bvx))
    (hmac : inStr ("Definition type: Global macro".toList) item = false)
    (hty : inStr ("Definition type: Type".toList) item = false)
    (hgp : inStr ("\nDefinition type: Global promote\n".toList) item = false)
    (hgf : inStr ("\nDefinition type: Global function\n".toList) item = false)
    (hfn : inStr ("\nDefinition type: Function\n".toList) item = true)
    (hok : processItem A AA RT st item = .ok st') :
    st'.fn = st.fn ++ [mRec b t (argsWrap args) t] := by
  have hne : item ≠ [] := ne_nil_of_inStr (by decide) hfn
  rcases hl : splitlines item with _ | ⟨line0, rest⟩
  · exact absurd hl (splitlines_ne_nil hne)
  · rw [hl] at hsplit hres
    simp only [List.headD_cons] at hsplit hres
    have hdotres := resolveArgs_of_dot A AA st.tvar st.bvar line0 hsplit
    rw [hdotres] at hres
    injection hres with hres
    have hargs : args = (tblLookup (nameOfLine line0, nargsOf line0) A).getD
        ((tblLookup (b, nargsOf line0) AA).getD
          ((tblLookup (nameOfLine line0, nargsOf line0) AA).getD
            (prefixBase (nameOfLine line0) (nargsOf line0)))) := by
      exact (congrArg Prod.fst hres).symm
    rcases hr : splitOnList ("Return type: ".toList) ((line0 :: rest).getLastD [])
      with _ | ⟨p0, _ | ⟨p1, prest⟩⟩
    · rw [processItem_noret A AA RT st item hne hl hdotres hmac hty (by rw [hr]; simp)]
        at hok
      exact absurd hok (by simp)
    · rw [processItem_noret A AA RT st item hne hl hdotres hmac hty (by rw [hr]; simp)]
        at hok
      exact absurd hok (by simp)
    · rw [processItem_fn A AA RT st item hne hl hdotres hmac hty hr hgp hgf hfn] at hok
      injection hok with hok
      subst hok
      rw [if_pos hb, hargs]

/-- Witness for C4: `Window.Self` with an override table that maps
`Window.Self` to a conflicting return type `Conflict`; the emitted record
still carries the owner type `Window`. -/
theorem self_reference_rule_witness :
    splitOnChar '.' (nameOfLine ((splitlines
      ("Window.Self(Arg0)\nDefinition type: Function\nReturn type: [unregistered]".toList)).headD []))
      = ["Window".toList, "Self".toList] ∧
    processItem ARGS_OVERRIDE ARGS_OVERRIDE_ANY
      [("Window.Self".toList, "Conflict".toList)] initState
      ("Window.Self(Arg0)\nDefinition type: Function\nReturn type: [unregistered]".toList)
      = .ok { initState with
              fn := ["    (\"Self\", Window, Args(&[DType(Unknown)]), Window),\n".toList],
              tvar := some ("Window".toList), bvar := some ("Self".toList) } ∧
    ({ initState with
       fn := ["    (\"Self\", Window, Args(&[DType(Unknown)]), Window),\n".toList],
       tvar := some ("Window".toList), bvar := some ("Self".toList) } : MState).fn
      = initState.fn ++ [mRec ("Self".toList) ("Window".toList)
          (argsWrap ["DType(Unknown)".toList]) ("Window".toList)] := by
  refine ⟨by decide, by rfl, ?_⟩
  exact self_reference_rule ARGS_OVERRIDE ARGS_OVERRIDE_ANY
    [("Window.Self".toList, "Conflict".toList)] initState
    ("Window.Self(Arg0)\nDefinition type: Function\nReturn type: [unregistered]".toList)
    ("Window".toList) ("Self".toList) ["DType(Unknown)".toList]
    (some ("Window".toList)) (some ("Self".toList))
    { initState with
      fn := ["    (\"Self\", Window, Args(&[DType(Unknown)]), Window),\n".toList],
      tvar := some ("Window".toList), bvar := some ("Self".toList) }
    (by decide) (by decide) (by rfl) (by decide) (by decide) (by decide) (by decide)
    (by decide) (by rfl)

end Munch

namespace Munch

/-! ### C8: unclassified items abort the run -/

/-- **C8 (amended).** A non-empty block with no `Definition type: ` tag always
kills the run, but the offending block is printed verbatim (the
`unknownItem` error, which carries the block) only when the name has at most
one dot and the last line contains `Return type: `; otherwise the script dies
earlier, in the dot-split (`ValueError`) or the return-line indexing
(`IndexError`), without printing the block. -/
theorem unclassified_aborts (A AA : ArgTable) (RT : RetTable) (st : MState) (item : Str)
    (hne : item ≠ [])
    (hnotag : inStr ("Definition type: ".toList) item = false) :
    processItem A AA RT st item = .error
      (if 3 ≤ (splitOnChar '.' (nameOfLine ((splitlines item).headD []))).length then
        .valueErr
       else if 2 ≤ (splitOnList ("Return type: ".toList)
           ((splitlines item).getLastD [])).length then
        .unknownItem item
       else .indexErr) := by
  have htag : ∀ tag : Str, inStr ("Definition type: ".toList) tag = true →
      inStr tag item = false := by
    intro tag htg
    by_contra hc
    rw [Bool.not_eq_false] at hc
    rw [inStr_trans htg hc] at hnotag
    exact absurd hnotag (by decide)
  have hmac := htag _ (by decide : inStr ("Definition type: ".toList)
    ("Definition type: Global macro".toList) = true)
  have hty := htag _ (by decide : inStr ("Definition type: ".toList)
    ("Definition type: Type".toList) = true)
  have hgp := htag _ (by decide : inStr ("Definition type: ".toList)
    ("\nDefinition type: Global promote\n".toList) = true)
  have hgf := htag _ (by decide : inStr ("Definition type: ".toList)
    ("\nDefinition type: Global function\n".toList) = true)
  have hfn := htag _ (by decide : inStr ("Definition type: ".toList)
    ("\nDefinition type: Function\n".toList) = true)
  have hpr := htag _ (by decide : inStr ("Definition type: ".toList)
    ("\nDefinition type: Promote\n".toList) = true)
  rcases hl : splitlines item with _ | ⟨line0, rest⟩
  · exact absurd hl (splitlines_ne_nil hne)
  · simp only [List.headD_cons]
    by_cases hdots : 3 ≤ (splitOnChar '.' (nameOfLine line0)).length
    · rw [if_pos hdots]
      exact processItem_resErr A AA RT st item hne hl
        (resolveArgs_err_of_dots A AA st.tvar st.bvar line0 hdots)
    · rw [if_neg hdots]
      push_neg at hdots
      obtain ⟨args, tv, bv, hres⟩ :=
        resolveArgs_ok_of_few_dots A AA st.tvar st.bvar line0 (by omega)
      by_cases hret : 2 ≤ (splitOnList ("Return type: ".toList)
          ((line0 :: rest).getLastD [])).length
      · rw [if_pos (by simpa using hret)]
        rcases hr : splitOnList ("Return type: ".toList) ((line0 :: rest).getLastD [])
          with _ | ⟨p0, _ | ⟨p1, prest⟩⟩
        · rw [hr] at hret; simp at hret
        · rw [hr] at hret; simp at hret
        · exact processItem_unknown A AA RT st item hne hl hres hmac hty hr hgp hgf hfn hpr
      · rw [if_neg (by simpa using hret)]
        push_neg at hret
        exact processItem_noret A AA RT st item hne hl hres hmac hty (by omega)

/-- Witness for C8: a block with a `Return type: ` trailer but no tag dies
with the verbatim-printing unknown-item error. -/
theorem unclassified_aborts_witness :
    ("Foo\nReturn type: bool".toList : Str) ≠ [] ∧
    inStr ("Definition type: ".toList) ("Foo\nReturn type: bool".toList) = false ∧
    processItem ARGS_OVERRIDE ARGS_OVERRIDE_ANY RTYPE_OVERRIDE initState
      ("Foo\nReturn type: bool".toList)
      = .error (.unknownItem ("Foo\nReturn type: bool".toList)) := by
  refine ⟨by decide, by decide, ?_⟩
  have h := unclassified_aborts ARGS_OVERRIDE ARGS_OVERRIDE_ANY RTYPE_OVERRIDE initState
    ("Foo\nReturn type: bool".toList) (by decide) (by decide)
  rw [h]
  rw [if_neg (by decide), if_pos (by decide)]

/-- Counterexample to C8 as stated: a tagless block whose last line has no
`Return type: ` trailer aborts via the `IndexError` path, so the offending
block is *not* printed before the abort. -/
theorem unclassified_aborts_counterexample :
    runMainErr ["Foo\nBar".toList] = some Err.indexErr := by
  rfl

end Munch

namespace Munch

/-! ### C7: owner parse failure is not reliably fatal -/

/-- **C7 (code divergence).** The spec calls a Function item without the `.`
owner separator a fatal `OwnerParseFailure`.  The script only dies with a
`NameError` when `barename`/`type` were never assigned; once an earlier block
has assigned them, a dotless Function item is silently emitted into the
Functions table under the *stale* owner and bare name of that earlier block.
Here `Standalone(Arg0)` is recorded as `("Var", Scope, …)`. -/
theorem owner_parse_divergence :
    (runMainOk [("Scope.Var(Arg0)\nDefinition type: Function\nReturn type: bool"
        ++ "\n-----------------------\n\n"
        ++ "Standalone(Arg0)\nDefinition type: Function\nReturn type: bool").toList]).map
      (fun st => st.fn)
      = some ["    (\"Var\", Scope, Args(&[DType(CString)]), bool),\n".toList,
              "    (\"Var\", Scope, Args(&[DType(Unknown)]), bool),\n".toList] ∧
    runMainErr ["Standalone(Arg0)\nDefinition type: Function\nReturn type: bool".toList]
      = some Err.nameErr := by
  exact ⟨rfl, rfl⟩

end Munch

namespace Munch

/-! ### C10: non-Type records are appended, never deduplicated -/

/-- **C10 (amended).** Each block that reaches one of the four record branches
appends exactly one rendered line, unconditionally (no membership test, unlike
the `TYPES` branch), and the line depends only on the block itself for
GlobalPromote/GlobalFunction blocks and for Function/Promote blocks whose name
carries the owner separator.  (A *dotless* Function/Promote block renders
under the stale owner of whatever block came before it, so identical dotless
duplicates need not render identically — see the counterexample.) -/
theorem records_append_no_dedup :
    (∀ (A AA : ArgTable) (RT : RetTable) (item line0 : Str) (rest : List Str)
       (args : List Str) (tv0 bv0 : Option Str) (p0 p1 : Str) (prest : List Str),
      splitlines item = line0 :: rest →
      resolveArgs A AA none none line0 = .ok (args, tv0, bv0) →
      splitOnList ("Return type: ".toList) ((line0 :: rest).getLastD []) = p0 :: p1 :: prest →
      inStr ("Definition type: Global macro".toList) item = false →
      inStr ("Definition type: Type".toList) item = false →
      inStr ("\nDefinition type: Global promote\n".toList) item = true →
      ∀ (st st' : MState), processItem A AA RT st item = .ok st' →
        st'.gp = st.gp ++ [gRec (nameOfLine line0) (argsWrap args)
          (retResolve RT (nameOfLine line0) p1)]) ∧
    (∀ (A AA : ArgTable) (RT : RetTable) (item line0 : Str) (rest : List Str)
       (args : List Str) (tv0 bv0 : Option Str) (p0 p1 : Str) (prest : List Str),
      splitlines item = line0 :: rest →
      resolveArgs A AA none none line0 = .ok (args, tv0, bv0) →
      splitOnList ("Return type: ".toList) ((line0 :: rest).getLastD []) = p0 :: p1 :: prest →
      inStr ("Definition type: Global macro".toList) item = false →
      inStr ("Definition type: Type".toList) item = false →
      inStr ("\nDefinition type: Global promote\n".toList) item = false →
      inStr ("\nDefinition type: Global function\n".toList) item = true →
      ∀ (st st' : MState), processItem A AA RT st item = .ok st' →
        st'.gf = st.gf ++ [gRec (nameOfLine line0) (argsWrap args)
          (retResolve RT (nameOfLine line0) p1)]) ∧
    (∀ (A AA : ArgTable) (RT : RetTable) (item line0 : Str) (rest : List Str)
       (t b : Str) (args : List Str) (p0 p1 : Str) (prest : List Str),
      splitlines item = line0 :: rest →
      splitOnChar '.' (nameOfLine line0) = [t, b] →
      resolveArgs A AA none none line0 = .ok (args, some t, some b) →
      splitOnList ("Return type: ".toList) ((line0 :: rest).getLastD []) = p0 :: p1 :: prest →
      inStr ("Definition type: Global macro".toList) item = false →
      inStr ("Definition type: Type".toList) item = false →
      inStr ("\nDefinition type: Global promote\n".toList) item = false →
      inStr ("\nDefinition type: Global function\n".toList) item = false →
      inStr ("\nDefinition type: Function\n".toList) item = true →
      ∀ (st st' : MState), processItem A AA RT st item = .ok st' →
        st'.fn = st.fn ++ [mRec b t (argsWrap args)
          (if b = "AccessSelf".toList ∨ b = "Self".toList then t
           else retResolve RT (nameOfLine line0) p1)]) ∧
    (∀ (A AA : ArgTable) (RT : RetTable) (item line0 : Str) (rest : List Str)
       (t b : Str) (args : List Str) (p0 p1 : Str) (prest : List Str),
      splitlines item = line0 :: rest →
      splitOnChar '.' (nameOfLine line0) = [t, b] →
      resolveArgs A AA none none line0 = .ok (args, some t, some b) →
      splitOnList ("Return type: ".toList) ((line0 :: rest).getLastD []) = p0 :: p1 :: prest →
      inStr ("Definition type: Global macro".toList) item = false →
      inStr ("Definition type: Type".toList) item = false →
      inStr ("\nDefinition type: Global promote\n".toList) item = false →
      inStr ("\nDefinition type: Global function\n".toList) item = false →
      inStr ("\nDefinition type: Function\n".toList) item = false →
      inStr ("\nDefinition type: Promote\n".toList) item = true →
      ∀ (st st' : MState), processItem A AA RT st item = .ok st' →
        st'.pr = st.pr ++ [mRec b t (argsWrap args)
          (retResolve RT (nameOfLine line0) p1)]) := by
  have okst : ∀ (A AA : ArgTable) (st : MState) (line0 : Str) (args : List Str)
      (tv0 bv0 : Option Str),
      resolveArgs A AA none none line0 = .ok (args, tv0, bv0) →
      ∃ tv bv, resolveArgs A AA st.tvar st.bvar line0 = .ok (args, tv, bv) := by
    intro A AA st line0 args tv0 bv0 h0
    have hmap := resolveArgs_fst_indep A AA st.tvar st.bvar none none line0
    rcases h1 : resolveArgs A AA st.tvar st.bvar line0 with e | ⟨a1, t1, b1⟩
    · rw [h0, h1] at hmap; simp [Except.map] at hmap
    · rw [h0, h1] at hmap
      simp [Except.map] at hmap
      subst hmap
      exact ⟨t1, b1, rfl⟩
  refine ⟨?_, ?_, ?_, ?_⟩
  · intro A AA RT item line0 rest args tv0 bv0 p0 p1 prest hl h0 hr hmac hty hgp st st' hok
    have hne : item ≠ [] := ne_nil_of_inStr (by decide) hgp
    obtain ⟨tv, bv, hres⟩ := okst A AA st line0 args tv0 bv0 h0
    rw [processItem_gp A AA RT st item hne hl hres hmac hty hr hgp] at hok
    injection hok with hok
    subst hok
    rfl
  · intro A AA RT item line0 rest args tv0 bv0 p0 p1 prest hl h0 hr hmac hty hgp hgf st st' hok
    have hne : item ≠ [] := ne_nil_of_inStr (by decide) hgf
    obtain ⟨tv, bv, hres⟩ := okst A AA st line0 args tv0 bv0 h0
    rw [processItem_gf A AA RT st item hne hl hres hmac hty hr hgp hgf] at hok
    injection hok with hok
    subst hok
    rfl
  · intro A AA RT item line0 rest t b args p0 p1 prest hl hsplit h0 hr hmac hty hgp hgf hfn
      st st' hok
    have hne : item ≠ [] := ne_nil_of_inStr (by decide) hfn
    have hres : resolveArgs A AA st.tvar st.bvar line0 = .ok (args, some t, some b) := by
      rw [resolveArgs_of_dot A AA st.tvar st.bvar line0 hsplit]
      rw [resolveArgs_of_dot A AA none none line0 hsplit] at h0
      exact h0
    rw [processItem_fn A AA RT st item hne hl hres hmac hty hr hgp hgf hfn] at hok
    injection hok with hok
    subst hok
    rfl
  · intro A AA RT item line0 rest t b args p0 p1 prest hl hsplit h0 hr hmac hty hgp hgf hfn hpr
      st st' hok
    have hne : item ≠ [] := ne_nil_of_inStr (by decide) hpr
    have hres : resolveArgs A AA st.tvar st.bvar line0 = .ok (args, some t, some b) := by
      rw [resolveArgs_of_dot A AA st.tvar st.bvar line0 hsplit]
      rw [resolveArgs_of_dot A AA none none line0 hsplit] at h0
      exact h0
    rw [processItem_pr A AA RT st item hne hl hres hmac hty hr hgp hgf hfn hpr] at hok
    injection hok with hok
    subst hok
    rfl

/-- Witness for C10: a concrete GlobalPromote block appends its record from
the seeded initial state. -/
theorem records_append_no_dedup_witness :
    splitlines ("Glob(Arg0)\nDefinition type: Global promote\nReturn type: bool".toList)
      = ["Glob(Arg0)".toList, "Definition type: Global promote".toList,
         "Return type: bool".toList] ∧
    processItem ARGS_OVERRIDE ARGS_OVERRIDE_ANY RTYPE_OVERRIDE initState
      ("Glob(Arg0)\nDefinition type: Global promote\nReturn type: bool".toList)
      = .ok { initState with
              gp := initState.gp ++
                ["    (\"Glob\", Args(&[DType(Unknown)]), bool),\n".toList] } ∧
    ({ initState with
       gp := initState.gp ++
         ["    (\"Glob\", Args(&[DType(Unknown)]), bool),\n".toList] } : MState).gp
      = initState.gp ++ [gRec ("Glob".toList)
          (argsWrap ["DType(Unknown)".toList])
          (retResolve RTYPE_OVERRIDE ("Glob".toList) ("bool".toList))] := by
  refine ⟨by decide, by rfl, ?_⟩
  exact records_append_no_dedup.1 ARGS_OVERRIDE ARGS_OVERRIDE_ANY RTYPE_OVERRIDE
    ("Glob(Arg0)\nDefinition type: Global promote\nReturn type: bool".toList)
    ("Glob(Arg0)".toList)
    ["Definition type: Global promote".toList, "Return type: bool".toList]
    ["DType(Unknown)".toList] none none
    ("".toList) ("bool".toList) []
    (by decide) (by rfl) (by decide) (by decide) (by decide) (by decide)
    initState
    { initState with
      gp := initState.gp ++ ["    (\"Glob\", Args(&[DType(Unknown)]), bool),\n".toList] }
    (by rfl)

/-- Counterexample to C10 as stated: the dotless Function block `NoDot` occurs
twice in the input, yet the line rendered for its first occurrence —
`("F", Alpha, Args(&[]), bool)`, produced under the stale owner of the
preceding `Alpha.F` block — appears only once in the Functions table, because
the second occurrence renders under a different stale owner. -/
theorem records_dedup_counterexample :
    List.count ("NoDot\nDefinition type: Function\nReturn type: bool".toList)
      (joinBlocks [("Alpha.F(Arg0)\nDefinition type: Function\nReturn type: bool"
        ++ "\n-----------------------\n\n"
        ++ "NoDot\nDefinition type: Function\nReturn type: bool"
        ++ "\n-----------------------\n\n"
        ++ "Beta.G(Arg0)\nDefinition type: Function\nReturn type: bool"
        ++ "\n-----------------------\n\n"
        ++ "NoDot\nDefinition type: Function\nReturn type: bool").toList]) = 2 ∧
    (runMainOk [("Alpha.F(Arg0)\nDefinition type: Function\nReturn type: bool"
        ++ "\n-----------------------\n\n"
        ++ "NoDot\nDefinition type: Function\nReturn type: bool"
        ++ "\n-----------------------\n\n"
        ++ "Beta.G(Arg0)\nDefinition type: Function\nReturn type: bool"
        ++ "\n-----------------------\n\n"
        ++ "NoDot\nDefinition type: Function\nReturn type: bool").toList]).map
      (fun st => List.count ("    (\"F\", Alpha, Args(&[]), bool),\n".toList)
        (sortStrs st.fn))
      = some 1 := by
  exact ⟨by rfl, by rfl⟩

end Munch

namespace Munch

/-! ### The string order used for sorting -/

theorem strLe_total : ∀ (a b : Str), strLe a b = true ∨ strLe b a = true := by
  intro a
  induction a with
  | nil => intro b; exact Or.inl rfl
  | cons x xs ih =>
    intro b
    cases b with
    | nil => exact Or.inr rfl
    | cons y ys =>
      by_cases hxy : x = y
      · subst hxy
        simp only [strLe, if_pos rfl]
        exact ih ys
      · rcases lt_or_gt_of_ne hxy with h | h
        · left
          simp only [strLe, if_neg hxy]
          simpa using h
        · right
          simp only [strLe, if_neg (Ne.symm hxy)]
          simpa using h

theorem strLe_trans : ∀ (a b c : Str),
    strLe a b = true → strLe b c = true → strLe a c = true := by
  intro a
  induction a with
  | nil => intro b c _ _; rfl
  | cons x xs ih =>
    intro b c hab hbc
    cases b with
    | nil => simp [strLe] at hab
    | cons y ys =>
      cases c with
      | nil => simp [strLe] at hbc
      | cons z zs =>
        by_cases hxy : x = y
        · subst hxy
          simp only [strLe, if_pos rfl] at hab
          by_cases hyz : x = z
          · subst hyz
            simp only [strLe, if_pos rfl] at hbc ⊢
            exact ih ys zs hab hbc
          · simp only [strLe, if_neg hyz] at hbc ⊢
            exact hbc
        · simp only [strLe, if_neg hxy] at hab
          rw [decide_eq_true_eq] at hab
          by_cases hyz : y = z
          · subst hyz
            simp only [strLe, if_neg hxy]
            simpa using hab
          · simp only [strLe, if_neg hyz] at hbc
            rw [decide_eq_true_eq] at hbc
            have hxz : x < z := lt_trans hab hbc
            simp only [strLe, if_neg (ne_of_lt hxz)]
            simpa using hxz

theorem strLe_antisymm : ∀ (a b : Str),
    strLe a b = true → strLe b a = true → a = b := by
  intro a
  induction a with
  | nil =>
    intro b _ hba
    cases b with
    | nil => rfl
    | cons y ys => simp [strLe] at hba
  | cons x xs ih =>
    intro b hab hba
    cases b with
    | nil => simp [strLe] at hab
    | cons y ys =>
      by_cases hxy : x = y
      · subst hxy
        simp only [strLe, if_pos rfl] at hab hba
        rw [ih ys hab hba]
      · simp only [strLe, if_neg hxy, if_neg (Ne.symm hxy)] at hab hba
        rw [decide_eq_true_eq] at hab hba
        exact absurd hba (lt_asymm hab)

instance : IsTotal Str strLeP := ⟨strLe_total⟩

instance : IsTrans Str strLeP := ⟨strLe_trans⟩

instance : IsAntisymm Str strLeP := ⟨strLe_antisymm⟩

theorem sortStrs_sorted (l : List Str) : List.Sorted strLeP (sortStrs l) :=
  List.sorted_insertionSort strLeP l

theorem sortStrs_perm (l : List Str) : (sortStrs l).Perm l :=
  List.perm_insertionSort strLeP l

theorem sortStrs_eq_of_perm {l1 l2 : List Str} (h : l1.Perm l2) :
    sortStrs l1 = sortStrs l2 :=
  List.eq_of_perm_of_sorted
    (((sortStrs_perm l1).trans h).trans (sortStrs_perm l2).symm)
    (sortStrs_sorted l1) (sortStrs_sorted l2)

theorem count_beq_eq (a : Str) (l : List Str) :
    List.count a l = @List.count Str instBEqOfDecidableEq a l := by
  simp only [List.count]
  apply List.countP_congr
  intro x _
  by_cases h : x = a <;> simp [h]

theorem sortStrs_count (a : Str) (l : List Str) :
    List.count a (sortStrs l) = List.count a l := by
  rw [count_beq_eq a (sortStrs l), count_beq_eq a l]
  exact (sortStrs_perm l).count_eq a

end Munch

namespace Munch

/-! ### Run-level plumbing -/

theorem runBlocks_append (A AA : ArgTable) (RT : RetTable) :
    ∀ (l1 l2 : List Str) (st : MState),
    runBlocks A AA RT st (l1 ++ l2) =
      match runBlocks A AA RT st l1 with
      | .error e => .error e
      | .ok st1 => runBlocks A AA RT st1 l2 := by
  intro l1
  induction l1 with
  | nil => intro l2 st; rfl
  | cons b bs ih =>
    intro l2 st
    simp only [List.cons_append, runBlocks]
    rcases processItem A AA RT st b with e | st1
    · rfl
    · exact ih l2 st1

theorem runFiles_eq_runBlocks (A AA : ArgTable) (RT : RetTable) :
    ∀ (files : List Str) (st : MState),
    runFiles A AA RT st files = runBlocks A AA RT st (joinBlocks files) := by
  intro files
  induction files with
  | nil => intro st; rfl
  | cons f fs ih =>
    intro st
    simp only [runFiles, joinBlocks, List.map_cons, List.flatten_cons]
    rw [runBlocks_append]
    rcases runBlocks A AA RT st (splitOnList SEPARATOR f) with e | st1
    · rfl
    · exact ih st1

/-- Each step either leaves `TYPES` alone or appends one line not already
present. -/
theorem processItem_types_shape (A AA : ArgTable) (RT : RetTable) (st : MState)
    (item : Str) (st' : MState) (hok : processItem A AA RT st item = .ok st') :
    st'.types = st.types ∨ ∃ tl, tl ∉ st.types ∧ st'.types = st.types ++ [tl] := by
  rcases hb : itemBody A AA RT st.tvar st.bvar item with e | d
  · rw [processItem, hb] at hok; exact absurd hok (by simp)
  · rw [processItem, hb] at hok
    injection hok with hok
    subst hok
    rcases htl : d.tline with _ | tl
    · left; simp [applyDelta, htl]
    · by_cases hmem : tl ∈ st.types
      · left; simp [applyDelta, htl, hmem]
      · right; exact ⟨tl, hmem, by simp [applyDelta, htl, hmem]⟩

theorem processItem_types_nodup (A AA : ArgTable) (RT : RetTable) {st : MState}
    {item : Str} {st' : MState} (hok : processItem A AA RT st item = .ok st')
    (hnd : st.types.Nodup) : st'.types.Nodup := by
  rcases processItem_types_shape A AA RT st item st' hok with h | ⟨tl, hmem, h⟩
  · rw [h]; exact hnd
  · rw [h]
    simp [List.nodup_append, hnd, hmem]

theorem processItem_types_mono (A AA : ArgTable) (RT : RetTable) {st : MState}
    {item : Str} {st' : MState} (hok : processItem A AA RT st item = .ok st') :
    ∀ x ∈ st.types, x ∈ st'.types := by
  intro x hx
  rcases processItem_types_shape A AA RT st item st' hok with h | ⟨tl, _, h⟩
  · rw [h]; exact hx
  · rw [h]; exact List.mem_append_left _ hx

theorem runBlocks_types_nodup (A AA : ArgTable) (RT : RetTable) :
    ∀ (l : List Str) (st st' : MState), runBlocks A AA RT st l = .ok st' →
    st.types.Nodup → st'.types.Nodup := by
  intro l
  induction l with
  | nil =>
    intro st st' hok hnd
    rw [runBlocks] at hok
    injection hok with hok
    subst hok
    exact hnd
  | cons b bs ih =>
    intro st st' hok hnd
    rw [runBlocks] at hok
    rcases hp : processItem A AA RT st b with e | st1
    · rw [hp] at hok; exact absurd hok (by simp)
    · rw [hp] at hok
      exact ih st1 st' hok (processItem_types_nodup A AA RT hp hnd)

theorem runBlocks_types_mono (A AA : ArgTable) (RT : RetTable) :
    ∀ (l : List Str) (st st' : MState), runBlocks A AA RT st l = .ok st' →
    ∀ x ∈ st.types, x ∈ st'.types := by
  intro l
  induction l with
  | nil =>
    intro st st' hok x hx
    rw [runBlocks] at hok
    injection hok with hok
    subst hok
    exact hx
  | cons b bs ih =>
    intro st st' hok x hx
    rw [runBlocks] at hok
    rcases hp : processItem A AA RT st b with e | st1
    · rw [hp] at hok; exact absurd hok (by simp)
    · rw [hp] at hok
      exact ih st1 st' hok x (processItem_types_mono A AA RT hp x hx)

end Munch

namespace Munch

/-! ### C5: type dedup, sorting, sentinels -/

/-- A block that the classifier sends to the `Type` branch, declaring the
type name `T`. -/
def declaresType (item T : Str) : Bool :=
  !item.isEmpty &&
  !(inStr ("Definition type: Global macro".toList) item) &&
  inStr ("Definition type: Type".toList) item &&
  decide (nameOfLine ((splitlines item).headD []) = T)

/-- The line a type declaration contributes to the enumeration. -/
def typeLine (T : Str) : Str := "    ".toList ++ T ++ ",\n".toList

/-- The member lines of the generated `Datatype` enum: the two hard-coded
sentinels followed by the sorted `TYPES` lines. -/
def typeEnum (st : MState) : List Str :=
  ("    Unknown,\n".toList) :: ("    AnyScope,\n".toList) :: sortStrs st.types

theorem typeLine_inj {T U : Str} (h : typeLine T = typeLine U) : T = U := by
  simp only [typeLine] at h
  have h1 : "    ".toList ++ T = "    ".toList ++ U := List.append_cancel_right h
  exact List.append_cancel_left h1

theorem datatypesOut_enum (st : MState) : datatypesOut st =
    "#[derive(Copy, Clone, Debug, Eq, PartialEq, Display, EnumString)]\n".toList
      ++ "pub enum Datatype \x7b\n".toList ++ (typeEnum st).flatten
      ++ "\x7d\n".toList := by
  simp [datatypesOut, typeEnum]

/-- A processed `Type` block puts its type line into `TYPES`. -/
theorem processItem_type_mem (A AA : ArgTable) (RT : RetTable) (st : MState)
    (item T : Str) (st' : MState)
    (hd : declaresType item T = true)
    (hok : processItem A AA RT st item = .ok st') :
    typeLine T ∈ st'.types := by
  simp only [declaresType, Bool.and_eq_true, Bool.not_eq_true', decide_eq_true_eq] at hd
  obtain ⟨⟨⟨hne', hmac⟩, hty⟩, hname⟩ := hd
  have hne : item ≠ [] := by
    intro h
    subst h
    simp at hne'
  rcases hl : splitlines item with _ | ⟨line0, rest⟩
  · exact absurd hl (splitlines_ne_nil hne)
  · rw [hl] at hname
    simp only [List.headD_cons] at hname
    rcases hres : resolveArgs A AA st.tvar st.bvar line0 with e | ⟨args, tv, bv⟩
    · rw [processItem_resErr A AA RT st item hne hl hres] at hok
      exact absurd hok (by simp)
    · rw [processItem_type A AA RT st item hne hl hres hmac hty] at hok
      injection hok with hok
      subst hok
      rw [← hname]
      rw [show typeLine (nameOfLine line0)
            = "    ".toList ++ nameOfLine line0 ++ ",\n".toList from rfl]
      by_cases hmem : ("    ".toList ++ nameOfLine line0 ++ ",\n".toList) ∈ st.types
      · rw [if_pos hmem]; exact hmem
      · rw [if_neg hmem]
        exact List.mem_append_right _ (by simp)

/-- Once some block of the list declares `T`, the final `TYPES` holds its
line. -/
theorem runBlocks_type_mem (A AA : ArgTable) (RT : RetTable) :
    ∀ (l : List Str) (st st' : MState), runBlocks A AA RT st l = .ok st' →
    ∀ T, (∃ b ∈ l, declaresType b T = true) → typeLine T ∈ st'.types := by
  intro l
  induction l with
  | nil =>
    intro st st' hok T hex
    obtain ⟨b, hb, _⟩ := hex
    simp at hb
  | cons b bs ih =>
    intro st st' hok T hex
    rw [runBlocks] at hok
    rcases hp : processItem A AA RT st b with e | st1
    · rw [hp] at hok; exact absurd hok (by simp)
    · rw [hp] at hok
      obtain ⟨b', hb', hd'⟩ := hex
      rcases List.mem_cons.mp hb' with h | h
      · subst h
        exact runBlocks_types_mono A AA RT bs st1 st' hok _
          (processItem_type_mem A AA RT st b' T st1 hd' hp)
      · exact ih st1 st' hok T ⟨b', h, hd'⟩

/-- **C5 (amended).** In any completed run, a type name declared by two or
more blocks — provided it is not itself the name of a built-in sentinel —
appears exactly once among the enumeration lines; the declared lines are
sorted by the string order; both sentinel lines are always in the
enumeration; and the rendered `datatypes.rs` is exactly the enum header
followed by those lines.  (Declaring a type literally named `Unknown` or
`AnyScope` duplicates the hard-coded sentinel line — see the
counterexample.) -/
theorem type_dedup_sorted_sentinels (files : List Str) (st : MState) (T : Str)
    (hok : runMain files = .ok st)
    (hdecl : 2 ≤ (joinBlocks files).countP (fun b => declaresType b T))
    (hT1 : T ≠ "Unknown".toList) (hT2 : T ≠ "AnyScope".toList) :
    List.count (typeLine T) (typeEnum st) = 1 ∧
    List.Sorted strLeP (sortStrs st.types) ∧
    ("    Unknown,\n".toList) ∈ typeEnum st ∧
    ("    AnyScope,\n".toList) ∈ typeEnum st ∧
    datatypesOut st =
      "#[derive(Copy, Clone, Debug, Eq, PartialEq, Display, EnumString)]\n".toList
        ++ "pub enum Datatype \x7b\n".toList ++ (typeEnum st).flatten
        ++ "\x7d\n".toList := by
  have hrun : runBlocks ARGS_OVERRIDE ARGS_OVERRIDE_ANY RTYPE_OVERRIDE initState
      (joinBlocks files) = .ok st := by
    rw [← runFiles_eq_runBlocks]
    exact hok
  have hex : ∃ b ∈ joinBlocks files, declaresType b T = true := by
    rw [← List.countP_pos_iff]
    omega
  have hmem : typeLine T ∈ st.types :=
    runBlocks_type_mem ARGS_OVERRIDE ARGS_OVERRIDE_ANY RTYPE_OVERRIDE
      (joinBlocks files) initState st hrun T hex
  have hnd : st.types.Nodup :=
    runBlocks_types_nodup ARGS_OVERRIDE ARGS_OVERRIDE_ANY RTYPE_OVERRIDE
      (joinBlocks files) initState st hrun (by decide)
  have hcount1 : List.count (typeLine T) st.types = 1 := by
    rw [count_beq_eq]
    exact List.count_eq_one_of_mem hnd hmem
  refine ⟨?_, sortStrs_sorted st.types, List.mem_cons_self _ _,
    List.mem_cons_of_mem _ (List.mem_cons_self _ _), datatypesOut_enum st⟩
  have hu : typeLine T ≠ ("    Unknown,\n".toList) := by
    intro h
    exact hT1 (typeLine_inj (h.trans (by decide)))
  have ha : typeLine T ≠ ("    AnyScope,\n".toList) := by
    intro h
    exact hT2 (typeLine_inj (h.trans (by decide)))
  have hu' := Ne.symm hu
  have ha' := Ne.symm ha
  simp only [typeEnum, List.count_cons, sortStrs_count, hcount1, beq_iff_eq]
  rw [if_neg ha', if_neg hu']

/-- Witness for C5: `Army` declared in two blocks of one file shows up
exactly once in the enumeration. -/
theorem type_dedup_sorted_sentinels_witness :
    runMain [("Army\nDefinition type: Type"
        ++ "\n-----------------------\n\n"
        ++ "Army\nDefinition type: Type").toList]
      = .ok { types := ["    Vec4f,\n".toList, "    Army,\n".toList],
              gp := ["    (\"Root\", Args(&[]), Scope),\n".toList],
              gf := [], fn := [], pr := [], tvar := none, bvar := none } ∧
    2 ≤ (joinBlocks [("Army\nDefinition type: Type"
        ++ "\n-----------------------\n\n"
        ++ "Army\nDefinition type: Type").toList]).countP
      (fun b => declaresType b ("Army".toList)) ∧
    List.count (typeLine ("Army".toList))
      (typeEnum { types := ["    Vec4f,\n".toList, "    Army,\n".toList],
                  gp := ["    (\"Root\", Args(&[]), Scope),\n".toList],
                  gf := [], fn := [], pr := [], tvar := none, bvar := none }) = 1 := by
  refine ⟨by rfl, by decide, ?_⟩
  exact (type_dedup_sorted_sentinels
    [("Army\nDefinition type: Type"
        ++ "\n-----------------------\n\n"
        ++ "Army\nDefinition type: Type").toList]
    { types := ["    Vec4f,\n".toList, "    Army,\n".toList],
      gp := ["    (\"Root\", Args(&[]), Scope),\n".toList],
      gf := [], fn := [], pr := [], tvar := none, bvar := none }
    ("Army".toList) (by rfl) (by decide) (by decide) (by decide)).1

/-- Counterexample to C5 as stated: declaring a type literally named
`Unknown` twice yields an enumeration in which the `Unknown` line appears
twice (sentinel plus sorted `TYPES` entry), not once. -/
theorem type_dedup_counterexample :
    2 ≤ (joinBlocks [("Unknown\nDefinition type: Type"
        ++ "\n-----------------------\n\n"
        ++ "Unknown\nDefinition type: Type").toList]).countP
      (fun b => declaresType b ("Unknown".toList)) ∧
    (runMainOk [("Unknown\nDefinition type: Type"
        ++ "\n-----------------------\n\n"
        ++ "Unknown\nDefinition type: Type").toList]).map
      (fun st => List.count ("    Unknown,\n".toList) (typeEnum st)) = some 2 := by
  exact ⟨by decide, by rfl⟩

end Munch

namespace Munch

/-! ### C2: permutation determinism -/

/-- The table-visible part of a `Delta` (everything except the persistent
`type`/`barename` variables). -/
def dropTB (d : Delta) : Option Str × List Str × List Str × List Str × List Str :=
  (d.tline, d.gp, d.gf, d.fn, d.pr)

/-- Blocks whose contribution cannot depend on the persistent variables:
empty blocks, blocks with an owner-qualified name, macro and Type blocks, and
blocks that are not classified Function/Promote.  A dotless Function/Promote
block reads the stale `type`/`barename` of an earlier block and is excluded. -/
def selfContained (item : Str) : Bool :=
  item.isEmpty ||
  inStr (".".toList) (nameOfLine ((splitlines item).headD [])) ||
  inStr ("Definition type: Global macro".toList) item ||
  inStr ("Definition type: Type".toList) item ||
  (!(inStr ("\nDefinition type: Function\n".toList) item) &&
   !(inStr ("\nDefinition type: Promote\n".toList) item))

theorem itemBody_congr (A AA : ArgTable) (RT : RetTable) {item line0 : Str}
    {rest : List Str} (hne : item ≠ []) (hl : splitlines item = line0 :: rest)
    {tv1 bv1 tv2 bv2 : Option Str}
    (h : resolveArgs A AA tv1 bv1 line0 = resolveArgs A AA tv2 bv2 line0) :
    itemBody A AA RT tv1 bv1 item = itemBody A AA RT tv2 bv2 item := by
  simp only [itemBody, if_neg hne, hl]
  rw [h]

/-- On a self-contained block the loop body's table contribution does not
depend on the incoming persistent variables. -/
theorem itemBody_indep (A AA : ArgTable) (RT : RetTable) (item : Str)
    (hsc : selfContained item = true) (tv1 bv1 tv2 bv2 : Option Str) :
    (itemBody A AA RT tv1 bv1 item).map dropTB
      = (itemBody A AA RT tv2 bv2 item).map dropTB := by
  by_cases hne : item = []
  · subst hne; rfl
  rcases hl : splitlines item with _ | ⟨line0, rest⟩
  · exact absurd hl (splitlines_ne_nil hne)
  by_cases hdot : inStr (".".toList) (nameOfLine line0) = true
  · have hlen : 2 ≤ (splitOnChar '.' (nameOfLine line0)).length :=
      two_le_splitOnChar_of_mem ((inStr_singleton '.' _).mp hdot)
    rcases hs : splitOnChar '.' (nameOfLine line0) with _ | ⟨x, _ | ⟨y, _ | z⟩⟩
    · exact absurd hs (splitOnChar_ne_nil _ _)
    · rw [hs] at hlen; simp at hlen
    · rw [itemBody_congr A AA RT hne hl
        ((resolveArgs_of_dot A AA tv1 bv1 line0 hs).trans
          (resolveArgs_of_dot A AA tv2 bv2 line0 hs).symm)]
    · rw [itemBody_congr A AA RT hne hl
        ((resolveArgs_err_of_dots A AA tv1 bv1 line0 (by rw [hs]; simp)).trans
          (resolveArgs_err_of_dots A AA tv2 bv2 line0 (by rw [hs]; simp)).symm)]
  · have hmap := resolveArgs_fst_indep A AA tv1 bv1 tv2 bv2 line0
    rcases h1 : resolveArgs A AA tv1 bv1 line0 with e1 | ⟨a1, t1, b1⟩ <;>
      rcases h2 : resolveArgs A AA tv2 bv2 line0 with e2 | ⟨a2, t2, b2⟩ <;>
      rw [h1, h2] at hmap <;> simp [Except.map] at hmap
    · subst hmap
      simp only [itemBody, if_neg hne, hl, h1, h2]
    · subst hmap
      by_cases hmac : inStr ("Definition type: Global macro".toList) item = true
      · simp only [itemBody, if_neg hne, hl, h1, h2, hmac, if_true, Except.map]
        rfl
      rw [Bool.not_eq_true] at hmac
      by_cases hty : inStr ("Definition type: Type".toList) item = true
      · simp only [itemBody, if_neg hne, hl, h1, h2, hmac, hty, Bool.false_eq_true,
          if_false, if_true, Except.map]
        rfl
      rw [Bool.not_eq_true] at hty
      rcases hr : splitOnList ("Return type: ".toList) ((line0 :: rest).getLastD [])
        with _ | ⟨p0, _ | ⟨p1, prest⟩⟩
      · simp only [itemBody, if_neg hne, hl, h1, h2, hmac, hty, hr, Bool.false_eq_true,
          if_false, Except.map]
      · simp only [itemBody, if_neg hne, hl, h1, h2, hmac, hty, hr, Bool.false_eq_true,
          if_false, Except.map]
      by_cases hgp : inStr ("\nDefinition type: Global promote\n".toList) item = true
      · simp only [itemBody, if_neg hne, hl, h1, h2, hmac, hty, hr, hgp,
          Bool.false_eq_true, if_false, if_true, Except.map]
        rfl
      rw [Bool.not_eq_true] at hgp
      by_cases hgf : inStr ("\nDefinition type: Global function\n".toList) item = true
      · simp only [itemBody, if_neg hne, hl, h1, h2, hmac, hty, hr, hgp, hgf,
          Bool.false_eq_true, if_false, if_true, Except.map]
        rfl
      rw [Bool.not_eq_true] at hgf
      have hdotF : inStr (".".toList) (nameOfLine line0) = false := by
        rw [Bool.not_eq_true] at hdot
        exact hdot
      have hfp : inStr ("\nDefinition type: Function\n".toList) item = false ∧
          inStr ("\nDefinition type: Promote\n".toList) item = false := by
        have hsc' := hsc
        simp only [selfContained, hl, List.headD_cons, List.isEmpty_iff, hne,
          hdotF, hmac, hty, Bool.or_eq_true, Bool.and_eq_true, Bool.not_eq_true',
          false_or, or_false, Bool.false_eq_true] at hsc'
        exact hsc' 
      simp only [itemBody, if_neg hne, hl, h1, h2, hmac, hty, hr, hgp, hgf,
        hfp.1, hfp.2, Bool.false_eq_true, if_false, Except.map]

/-- The canonical per-block contribution, computed with unset persistent
variables. -/
def effList (A AA : ArgTable) (RT : RetTable) : List Str → Except Err (List Delta)
  | [] => .ok []
  | b :: bs =>
    match itemBody A AA RT none none b with
    | .error e => .error e
    | .ok d =>
      match effList A AA RT bs with
      | .error e => .error e
      | .ok ds => .ok (d :: ds)

/-- The canonical contribution as a total function (junk on failing blocks). -/
def effD (A AA : ArgTable) (RT : RetTable) (b : Str) : Delta :=
  match itemBody A AA RT none none b with
  | .ok d => d
  | .error _ => ⟨none, [], [], [], [], none, none⟩

/-- The `TYPES` accumulator over a list of contributions. -/
def typesFold (init : List Str) (ds : List Delta) : List Str :=
  ds.foldl
    (fun acc d =>
      match d.tline with
      | none => acc
      | some tl => if tl ∈ acc then acc else acc ++ [tl]) init

theorem effList_ok_map (A AA : ArgTable) (RT : RetTable) :
    ∀ {l : List Str} {ds : List Delta}, effList A AA RT l = .ok ds →
    ds = l.map (effD A AA RT) := by
  intro l
  induction l with
  | nil =>
    intro ds h
    rw [effList] at h
    injection h with h
    rw [← h]
    rfl
  | cons b bs ih =>
    intro ds h
    rw [effList] at h
    rcases hb : itemBody A AA RT none none b with e | d
    · rw [hb] at h; exact absurd h (by simp)
    · rw [hb] at h
      rcases hbs : effList A AA RT bs with e | ds1
      · rw [hbs] at h; exact absurd h (by simp)
      · rw [hbs] at h
        injection h with h
        rw [← h, List.map_cons, ← ih hbs]
        congr 1
        simp [effD, hb]

theorem effList_all_of_ok (A AA : ArgTable) (RT : RetTable) :
    ∀ {l : List Str} {ds : List Delta}, effList A AA RT l = .ok ds →
    ∀ b ∈ l, ∃ d, itemBody A AA RT none none b = .ok d := by
  intro l
  induction l with
  | nil => intro ds _ b hb; simp at hb
  | cons b0 bs ih =>
    intro ds h b hb
    rw [effList] at h
    rcases hb0 : itemBody A AA RT none none b0 with e | d
    · rw [hb0] at h; exact absurd h (by simp)
    · rw [hb0] at h
      rcases hbs : effList A AA RT bs with e | ds1
      · rw [hbs] at h; exact absurd h (by simp)
      · rcases List.mem_cons.mp hb with h' | h'
        · subst h'; exact ⟨d, hb0⟩
        · exact ih hbs b h'

theorem effList_ok_of_all (A AA : ArgTable) (RT : RetTable) :
    ∀ {l : List Str}, (∀ b ∈ l, ∃ d, itemBody A AA RT none none b = .ok d) →
    effList A AA RT l = .ok (l.map (effD A AA RT)) := by
  intro l
  induction l with
  | nil => intro _; rfl
  | cons b bs ih =>
    intro hall
    obtain ⟨d, hd⟩ := hall b (List.mem_cons_self _ _)
    rw [effList, hd, ih (fun x hx => hall x (List.mem_cons_of_mem _ hx))]
    simp [effD, hd]

theorem typesFold_nodup :
    ∀ (ds : List Delta) (init : List Str), init.Nodup → (typesFold init ds).Nodup := by
  intro ds
  induction ds with
  | nil => intro init h; exact h
  | cons d ds ih =>
    intro init h
    rw [typesFold, List.foldl_cons]
    apply ih
    rcases htl : d.tline with _ | tl
    · exact h
    · by_cases hmem : tl ∈ init
      · simpa [hmem] using h
      · simp [hmem, List.nodup_append, h]

theorem typesFold_mem :
    ∀ (ds : List Delta) (init : List Str) (x : Str),
    x ∈ typesFold init ds ↔ x ∈ init ∨ ∃ d ∈ ds, d.tline = some x := by
  intro ds
  induction ds with
  | nil => intro init x; simp [typesFold]
  | cons d ds ih =>
    intro init x
    rw [typesFold, List.foldl_cons]
    rw [show (List.foldl
      (fun acc d =>
        match d.tline with
        | none => acc
        | some tl => if tl ∈ acc then acc else acc ++ [tl])
      (match d.tline with
        | none => init
        | some tl => if tl ∈ init then init else init ++ [tl]) ds)
      = typesFold (match d.tline with
        | none => init
        | some tl => if tl ∈ init then init else init ++ [tl]) ds from rfl]
    rw [ih]
    rcases htl : d.tline with _ | tl
    · simp [htl]
    · by_cases hmem : tl ∈ init
      · simp only [hmem, if_pos]
        constructor
        · rintro (h | h)
          · exact Or.inl h
          · exact Or.inr (by simpa using Or.inr h)
        · rintro (h | h)
          · exact Or.inl h
          · simp only [List.mem_cons] at h
            rcases h with ⟨d', hd', hline⟩
            rcases hd' with h' | h'
            · subst h'
              rw [htl] at hline
              injection hline with hline
              exact Or.inl (hline ▸ hmem)
            · exact Or.inr ⟨d', h', hline⟩
      · simp only [hmem, if_neg, if_false]
        constructor
        · rintro (h | h)
          · rcases List.mem_append.mp h with h' | h'
            · exact Or.inl h'
            · simp only [List.mem_singleton] at h'
              exact Or.inr ⟨d, List.mem_cons_self _ _, by rw [htl, h']⟩
          · rcases h with ⟨d', hd', hline⟩
            exact Or.inr ⟨d', List.mem_cons_of_mem _ hd', hline⟩
        · rintro (h | h)
          · exact Or.inl (List.mem_append_left _ h)
          · rcases h with ⟨d', hd', hline⟩
            rcases List.mem_cons.mp hd' with h' | h'
            · subst h'
              rw [htl] at hline
              injection hline with hline
              exact Or.inl (List.mem_append_right _ (by simp [hline]))
            · exact Or.inr ⟨d', h', hline⟩

/-- Running a list of self-contained blocks applies exactly the canonical
contribution of each block, in order. -/
theorem runBlocks_effects (A AA : ArgTable) (RT : RetTable) :
    ∀ (l : List Str), (∀ b ∈ l, selfContained b = true) → ∀ st : MState,
    (∀ e, effList A AA RT l = .error e → runBlocks A AA RT st l = .error e) ∧
    (∀ ds, effList A AA RT l = .ok ds →
      ∃ st', runBlocks A AA RT st l = .ok st' ∧
        st'.types = typesFold st.types ds ∧
        st'.gp = st.gp ++ (ds.map Delta.gp).flatten ∧
        st'.gf = st.gf ++ (ds.map Delta.gf).flatten ∧
        st'.fn = st.fn ++ (ds.map Delta.fn).flatten ∧
        st'.pr = st.pr ++ (ds.map Delta.pr).flatten) := by
  intro l
  induction l with
  | nil =>
    intro _ st
    constructor
    · intro e h
      rw [effList] at h
      exact absurd h (by simp)
    · intro ds h
      rw [effList] at h
      injection h with h
      subst h
      exact ⟨st, rfl, rfl, by simp, by simp, by simp, by simp⟩
  | cons b bs ih =>
    intro hall st
    have hscb : selfContained b = true := hall b (List.mem_cons_self _ _)
    have hmap := itemBody_indep A AA RT b hscb none none st.tvar st.bvar
    rcases hb0 : itemBody A AA RT none none b with e | d <;>
      rcases hbst : itemBody A AA RT st.tvar st.bvar b with e' | d' <;>
      rw [hb0, hbst] at hmap <;> simp [Except.map] at hmap
    · subst hmap
      constructor
      · intro e0 h
        rw [effList, hb0] at h
        injection h with h
        subst h
        rw [runBlocks, processItem, hbst]
      · intro ds h
        rw [effList, hb0] at h
        exact absurd h (by simp)
    · have hdtb : dropTB d' = dropTB d := hmap.symm
      simp only [dropTB, Prod.mk.injEq] at hdtb
      obtain ⟨htl, hgp, hgf, hfn, hpr⟩ := hdtb
      have hstep : processItem A AA RT st b = .ok (applyDelta st d') := by
        rw [processItem, hbst]
      constructor
      · intro e0 h
        rw [effList, hb0] at h
        rcases hbs : effList A AA RT bs with e1 | ds1
        · rw [hbs] at h
          injection h with h
          rw [runBlocks, hstep, ← h]
          exact (ih (fun x hx => hall x (List.mem_cons_of_mem _ hx)) (applyDelta st d')).1
            e1 hbs
        · rw [hbs] at h
          exact absurd h (by simp)
      · intro ds h
        rw [effList, hb0] at h
        rcases hbs : effList A AA RT bs with e1 | ds1
        · rw [hbs] at h
          exact absurd h (by simp)
        · rw [hbs] at h
          injection h with h
          subst h
          obtain ⟨st', hrb, ht, hg, hgf2, hfn2, hpr2⟩ :=
            (ih (fun x hx => hall x (List.mem_cons_of_mem _ hx)) (applyDelta st d')).2
              ds1 hbs
          refine ⟨st', by rw [runBlocks, hstep]; exact hrb, ?_, ?_, ?_, ?_, ?_⟩
          · rw [ht]
            rw [show (applyDelta st d').types =
                (match d.tline with
                 | none => st.types
                 | some tl => if tl ∈ st.types then st.types else st.types ++ [tl]) from by
              simp [applyDelta, htl]]
            rfl
          · rw [hg]
            simp [applyDelta, hgp, List.append_assoc]
          · rw [hgf2]
            simp [applyDelta, hgf, List.append_assoc]
          · rw [hfn2]
            simp [applyDelta, hfn, List.append_assoc]
          · rw [hpr2]
            simp [applyDelta, hpr, List.append_assoc]

/-- **C2 (amended).** For inputs whose blocks are all self-contained (no
dotless Function/Promote blocks relying on stale state), any permutation of
the input files, and of the blocks inside them, produces byte-identical
contents for all five output tables.  (Dotless Function/Promote blocks break
this — see the counterexample.) -/
theorem permutation_determinism (files1 files2 : List Str) (st1 : MState)
    (hperm : (joinBlocks files1).Perm (joinBlocks files2))
    (hsc : ∀ b ∈ joinBlocks files1, selfContained b = true)
    (hok : runMain files1 = .ok st1) :
    (runMainOk files2).map outputs = some (outputs st1) := by
  have hsc2 : ∀ b ∈ joinBlocks files2, selfContained b = true :=
    fun b hb => hsc b (hperm.mem_iff.mpr hb)
  have hrun1 : runBlocks ARGS_OVERRIDE ARGS_OVERRIDE_ANY RTYPE_OVERRIDE initState
      (joinBlocks files1) = .ok st1 := by
    rw [← runFiles_eq_runBlocks]
    exact hok
  rcases heff1 : effList ARGS_OVERRIDE ARGS_OVERRIDE_ANY RTYPE_OVERRIDE (joinBlocks files1)
    with e | ds1
  · rw [(runBlocks_effects ARGS_OVERRIDE ARGS_OVERRIDE_ANY RTYPE_OVERRIDE
      (joinBlocks files1) hsc initState).1 e heff1] at hrun1
    exact absurd hrun1 (by simp)
  · have hds1 : ds1 = (joinBlocks files1).map
        (effD ARGS_OVERRIDE ARGS_OVERRIDE_ANY RTYPE_OVERRIDE) :=
      effList_ok_map ARGS_OVERRIDE ARGS_OVERRIDE_ANY RTYPE_OVERRIDE heff1
    have hall2 : ∀ b ∈ joinBlocks files2, ∃ d,
        itemBody ARGS_OVERRIDE ARGS_OVERRIDE_ANY RTYPE_OVERRIDE none none b = .ok d :=
      fun b hb => effList_all_of_ok ARGS_OVERRIDE ARGS_OVERRIDE_ANY RTYPE_OVERRIDE heff1 b
        (hperm.mem_iff.mpr hb)
    have heff2 := effList_ok_of_all ARGS_OVERRIDE ARGS_OVERRIDE_ANY RTYPE_OVERRIDE hall2
    obtain ⟨st1', hrb1, ht1, hg1, hgf1, hfn1, hpr1⟩ :=
      (runBlocks_effects ARGS_OVERRIDE ARGS_OVERRIDE_ANY RTYPE_OVERRIDE
        (joinBlocks files1) hsc initState).2 ds1 heff1
    have hst1 : st1' = st1 := by
      have := hrb1.symm.trans hrun1
      injection this
    rw [hst1] at ht1 hg1 hgf1 hfn1 hpr1
    obtain ⟨st2, hrb2, ht2, hg2, hgf2, hfn2, hpr2⟩ :=
      (runBlocks_effects ARGS_OVERRIDE ARGS_OVERRIDE_ANY RTYPE_OVERRIDE
        (joinBlocks files2) hsc2 initState).2 _ heff2
    have hds : ds1.Perm ((joinBlocks files2).map
        (effD ARGS_OVERRIDE ARGS_OVERRIDE_ANY RTYPE_OVERRIDE)) := by
      rw [hds1]
      exact hperm.map _
    have hgperm : st1.gp.Perm st2.gp := by
      rw [hg1, hg2]
      exact ((hds.map Delta.gp).flatten).append_left _
    have hgfperm : st1.gf.Perm st2.gf := by
      rw [hgf1, hgf2]
      exact ((hds.map Delta.gf).flatten).append_left _
    have hfnperm : st1.fn.Perm st2.fn := by
      rw [hfn1, hfn2]
      exact ((hds.map Delta.fn).flatten).append_left _
    have hprperm : st1.pr.Perm st2.pr := by
      rw [hpr1, hpr2]
      exact ((hds.map Delta.pr).flatten).append_left _
    have htynodup1 : st1.types.Nodup := by
      rw [ht1]
      exact typesFold_nodup ds1 initState.types (by decide)
    have htynodup2 : st2.types.Nodup := by
      rw [ht2]
      exact typesFold_nodup _ initState.types (by decide)
    have htyperm : st1.types.Perm st2.types := by
      rw [List.perm_ext_iff_of_nodup htynodup1 htynodup2]
      intro x
      rw [ht1, ht2, typesFold_mem, typesFold_mem]
      constructor
      · rintro (h | ⟨d, hd, hline⟩)
        · exact Or.inl h
        · exact Or.inr ⟨d, hds.mem_iff.mp hd, hline⟩
      · rintro (h | ⟨d, hd, hline⟩)
        · exact Or.inl h
        · exact Or.inr ⟨d, hds.mem_iff.mpr hd, hline⟩
    have houts : outputs st2 = outputs st1 := by
      simp only [outputs, tableOut, datatypesOut]
      rw [sortStrs_eq_of_perm htyperm, sortStrs_eq_of_perm hgperm,
        sortStrs_eq_of_perm hgfperm, sortStrs_eq_of_perm hfnperm,
        sortStrs_eq_of_perm hprperm]
    have hfin : runMainOk files2 = some st2 := by
      rw [runMainOk, runMain, runFiles_eq_runBlocks, hrb2]
    rw [hfin]
    simp only [Option.map_some']
    rw [houts]

end Munch

namespace Munch

/-- Witness for C2: two GlobalFunction blocks in either order produce
byte-identical output tables. -/
theorem permutation_determinism_witness :
    (joinBlocks [("Foo(Arg0)\nDefinition type: Global function\nReturn type: bool"
        ++ "\n-----------------------\n\n"
        ++ "Bar(Arg0)\nDefinition type: Global function\nReturn type: bool").toList]).Perm
      (joinBlocks [("Bar(Arg0)\nDefinition type: Global function\nReturn type: bool"
        ++ "\n-----------------------\n\n"
        ++ "Foo(Arg0)\nDefinition type: Global function\nReturn type: bool").toList]) ∧
    (joinBlocks [("Foo(Arg0)\nDefinition type: Global function\nReturn type: bool"
        ++ "\n-----------------------\n\n"
        ++ "Bar(Arg0)\nDefinition type: Global function\nReturn type: bool").toList]).all
      (fun b => selfContained b) = true ∧
    runMain [("Foo(Arg0)\nDefinition type: Global function\nReturn type: bool"
        ++ "\n-----------------------\n\n"
        ++ "Bar(Arg0)\nDefinition type: Global function\nReturn type: bool").toList]
      = .ok { types := ["    Vec4f,\n".toList],
              gp := ["    (\"Root\", Args(&[]), Scope),\n".toList],
              gf := ["    (\"Foo\", Args(&[DType(Unknown)]), bool),\n".toList,
                     "    (\"Bar\", Args(&[DType(Unknown)]), bool),\n".toList],
              fn := [], pr := [], tvar := none, bvar := none } ∧
    (runMainOk [("Bar(Arg0)\nDefinition type: Global function\nReturn type: bool"
        ++ "\n-----------------------\n\n"
        ++ "Foo(Arg0)\nDefinition type: Global function\nReturn type: bool").toList]).map
      outputs
      = some (outputs
          { types := ["    Vec4f,\n".toList],
            gp := ["    (\"Root\", Args(&[]), Scope),\n".toList],
            gf := ["    (\"Foo\", Args(&[DType(Unknown)]), bool),\n".toList,
                   "    (\"Bar\", Args(&[DType(Unknown)]), bool),\n".toList],
            fn := [], pr := [], tvar := none, bvar := none }) := by
  have hperm : (joinBlocks [("Foo(Arg0)\nDefinition type: Global function\nReturn type: bool"
      ++ "\n-----------------------\n\n"
      ++ "Bar(Arg0)\nDefinition type: Global function\nReturn type: bool").toList]).Perm
      (joinBlocks [("Bar(Arg0)\nDefinition type: Global function\nReturn type: bool"
      ++ "\n-----------------------\n\n"
      ++ "Foo(Arg0)\nDefinition type: Global function\nReturn type: bool").toList]) := by
    rw [show joinBlocks [("Foo(Arg0)\nDefinition type: Global function\nReturn type: bool"
        ++ "\n-----------------------\n\n"
        ++ "Bar(Arg0)\nDefinition type: Global function\nReturn type: bool").toList]
      = [("Foo(Arg0)\nDefinition type: Global function\nReturn type: bool").toList,
         ("Bar(Arg0)\nDefinition type: Global function\nReturn type: bool").toList] from rfl]
    rw [show joinBlocks [("Bar(Arg0)\nDefinition type: Global function\nReturn type: bool"
        ++ "\n-----------------------\n\n"
        ++ "Foo(Arg0)\nDefinition type: Global function\nReturn type: bool").toList]
      = [("Bar(Arg0)\nDefinition type: Global function\nReturn type: bool").toList,
         ("Foo(Arg0)\nDefinition type: Global function\nReturn type: bool").toList] from rfl]
    exact List.Perm.swap _ _ _
  have hall : (joinBlocks [("Foo(Arg0)\nDefinition type: Global function\nReturn type: bool"
      ++ "\n-----------------------\n\n"
      ++ "Bar(Arg0)\nDefinition type: Global function\nReturn type: bool").toList]).all
      (fun b => selfContained b) = true := by decide
  refine ⟨hperm, hall, by rfl, ?_⟩
  exact permutation_determinism _ _ _ hperm
    (fun b hb => by
      have := List.all_eq_true.mp hall b hb
      simpa using this)
    (by rfl)

/-- Counterexample to C2 as stated: reversing the blocks of a file that holds
a dotless Function block between two owner-qualified ones changes which stale
owner the dotless block is recorded under, so the Functions tables differ
byte-wise between the two permutations even though both runs complete. -/
theorem permutation_determinism_counterexample :
    (joinBlocks [("Alpha.F(Arg0)\nDefinition type: Function\nReturn type: bool"
        ++ "\n-----------------------\n\n"
        ++ "NoDot\nDefinition type: Function\nReturn type: bool"
        ++ "\n-----------------------\n\n"
        ++ "Beta.G(Arg0)\nDefinition type: Function\nReturn type: bool").toList]).Perm
      (joinBlocks [("Beta.G(Arg0)\nDefinition type: Function\nReturn type: bool"
        ++ "\n-----------------------\n\n"
        ++ "NoDot\nDefinition type: Function\nReturn type: bool"
        ++ "\n-----------------------\n\n"
        ++ "Alpha.F(Arg0)\nDefinition type: Function\nReturn type: bool").toList]) ∧
    (runMainOk [("Alpha.F(Arg0)\nDefinition type: Function\nReturn type: bool"
        ++ "\n-----------------------\n\n"
        ++ "NoDot\nDefinition type: Function\nReturn type: bool"
        ++ "\n-----------------------\n\n"
        ++ "Beta.G(Arg0)\nDefinition type: Function\nReturn type: bool").toList]).map outputs
      ≠ (runMainOk [("Beta.G(Arg0)\nDefinition type: Function\nReturn type: bool"
        ++ "\n-----------------------\n\n"
        ++ "NoDot\nDefinition type: Function\nReturn type: bool"
        ++ "\n-----------------------\n\n"
        ++ "Alpha.F(Arg0)\nDefinition type: Function\nReturn type: bool").toList]).map
          outputs := by
  constructor
  · have hrev : (joinBlocks [("Alpha.F(Arg0)\nDefinition type: Function\nReturn type: bool"
        ++ "\n-----------------------\n\n"
        ++ "NoDot\nDefinition type: Function\nReturn type: bool"
        ++ "\n-----------------------\n\n"
        ++ "Beta.G(Arg0)\nDefinition type: Function\nReturn type: bool").toList]).reverse
        = joinBlocks [("Beta.G(Arg0)\nDefinition type: Function\nReturn type: bool"
        ++ "\n-----------------------\n\n"
        ++ "NoDot\nDefinition type: Function\nReturn type: bool"
        ++ "\n-----------------------\n\n"
        ++ "Alpha.F(Arg0)\nDefinition type: Function\nReturn type: bool").toList] := by rfl
    rw [← hrev]
    exact (List.reverse_perm _).symm
  · decide

end Munch
